import Mathlib

/-!
Verification of the WorkZen HRMS payroll/attendance core.

This file shallowly embeds the payroll computation engine and the
attendance/leave aggregation logic of the repository:

* `app/utils/calculations.py` — `calculate_monthly_salary` (salary-component
  resolution and remainder handling), `get_approved_leaves` (leave overlap);
* `app/routes/payroll.py` — the `salary_structure` route's component
  resolution passes and the `generate` route's payroll preconditions;
* `app/routes/attendance.py` — the `checkin`/`checkout` routes (event-log
  guards and working-hours recomputation);
* `app/models.py` — `Attendance.calculate_working_hours`,
  `SalaryComponent.calculate_amount`, and the `PayrollSettings.wage` property.

Currency and time quantities are modelled as exact rationals (the source
uses Python `Decimal`/`float`; all claim-relevant arithmetic is exact at the
inputs considered).  Calendar dates are modelled as integer day numbers.
-/

namespace WorkZen

/-- `SalaryComponent.computation_type` column: `'Fixed'` or `'Percentage'`. -/
inductive CompType where
  | Fixed
  | Percentage
deriving DecidableEq, Repr

/-- `SalaryComponent.base_for_percentage` column: `'Wage'` (default) or `'Basic'`. -/
inductive PctBase where
  | Wage
  | Basic
deriving DecidableEq, Repr

/-- A row of the `salary_components` table (`app/models.py`, `SalaryComponent`). -/
structure SComp where
  name : String
  ctype : CompType
  value : ℚ
  base : PctBase
  displayOrder : ℕ
  isActive : Bool
deriving DecidableEq, Repr

/-! ### Python-dict model

`calculate_monthly_salary` accumulates `component_amounts` in a `dict` keyed
by component name.  We model it as an association list where inserting an
existing key replaces its value in place and a new key is appended (Python
dict insertion-order semantics). -/

abbrev AmountMap := List (String × ℚ)

/-- `component_amounts[k] = v`: replace the binding of an existing key in
place, append a new key at the end (a dict's keys are unique, so replacing
the first binding is replacing the binding). -/
def mapInsert (m : AmountMap) (k : String) (v : ℚ) : AmountMap :=
  match m with
  | [] => [(k, v)]
  | p :: rest => if p.1 = k then (k, v) :: rest else p :: mapInsert rest k v

/-- `k in component_amounts`. -/
def mapHasKey (m : AmountMap) (k : String) : Bool :=
  m.any (fun p => p.1 = k)

/-- `component_amounts.get(k, 0)`-style lookup. -/
def mapGet (m : AmountMap) (k : String) : Option ℚ :=
  (m.find? (fun p => p.1 = k)).map (fun p => p.2)

/-- `sum(component_amounts.values())`. -/
def mapSum (m : AmountMap) : ℚ :=
  (m.map (fun p => p.2)).sum

/-! ### Component resolver of `calculate_monthly_salary`
(`app/utils/calculations.py`, lines 127–171)

The function receives the employee's active components ordered by
`display_order` (the SQL filter at line 117) and the wage. -/

/-- First pass (lines 131–142): compute `Basic` and the `Fixed` /
`Percentage`-of-`Wage` components, carrying `basic_amount` (initially `0.0`). -/
def calcFirstPass (wage : ℚ) : List SComp → ℚ → AmountMap → ℚ × AmountMap
  | [], b, m => (b, m)
  | c :: rest, b, m =>
    if c.name = "Basic" then
      let ba := if c.ctype = CompType.Percentage then wage * c.value / 100 else c.value
      calcFirstPass wage rest ba (mapInsert m c.name ba)
    else if c.ctype = CompType.Fixed then
      calcFirstPass wage rest b (mapInsert m c.name c.value)
    else if c.ctype = CompType.Percentage ∧ c.base = PctBase.Wage then
      calcFirstPass wage rest b (mapInsert m c.name (wage * c.value / 100))
    else
      calcFirstPass wage rest b m

/-- Second pass (lines 144–148): components not yet in the map that are
`Percentage` of `Basic` get `basic_amount × value / 100`. -/
def calcSecondPass (basic : ℚ) : List SComp → AmountMap → AmountMap
  | [], m => m
  | c :: rest, m =>
    if ¬ mapHasKey m c.name ∧ c.ctype = CompType.Percentage ∧ c.base = PctBase.Basic then
      calcSecondPass basic rest (mapInsert m c.name (basic * c.value / 100))
    else
      calcSecondPass basic rest m

/-- Result of the component-resolution part of `calculate_monthly_salary`. -/
structure CalcResult where
  amounts : AmountMap
  basicAmount : ℚ
  gross : ℚ
deriving Repr

/-- Lines 127–171 of `calculate_monthly_salary`: both passes, then the
remainder step — `remaining = wage − sum(component_amounts.values())`; if a
`'Fixed Allowance'` component exists its entry becomes `max(0, remaining)`
and is added to `total_components` (the gross); otherwise `max(0, remaining)`
is added to the `'Other Allowances'` entry (and not to `total_components`). -/
def calcResolveComponents (wage : ℚ) (comps : List SComp) : CalcResult :=
  let fp := calcFirstPass wage comps 0 []
  let b := fp.1
  let m2 := calcSecondPass b comps fp.2
  let total := mapSum m2
  let remaining := wage - total
  if comps.any (fun c => c.name = "Fixed Allowance") then
    let fa := max 0 remaining
    { amounts := mapInsert m2 "Fixed Allowance" fa
      basicAmount := b
      gross := total + fa }
  else
    let oa := (mapGet m2 "Other Allowances").getD 0
    { amounts := mapInsert m2 "Other Allowances" (oa + max 0 remaining)
      basicAmount := b
      gross := total }

/-- The component list the resolver actually receives:
`settings.salary_components.filter_by(is_active=True)` (line 117). -/
def activeComps (comps : List SComp) : List SComp :=
  comps.filter (fun c => c.isActive)

/-! ### Component resolver of the `salary_structure` route
(`app/routes/payroll.py`, lines 338–403)

The route reads component rows from the form (each with `amount`
initialised to `0.0`, line 358) and resolves them in four passes. -/

/-- A component row as read from the salary-structure form. -/
structure FormRow where
  name : String
  ctype : CompType
  value : ℚ
  base : PctBase
deriving DecidableEq, Repr

/-- An entry of `components_data` (form row plus its `amount` field). -/
structure FComp where
  name : String
  ctype : CompType
  value : ℚ
  base : PctBase
  amount : ℚ
deriving DecidableEq, Repr

/-- `components_data.append({... 'amount': 0.0})` (lines 352–359). -/
def mkFComp (r : FormRow) : FComp :=
  { name := r.name, ctype := r.ctype, value := r.value, base := r.base, amount := 0 }

/-- Second pass of the route (lines 361–370): find the first component named
`'Basic'`, compute `basic_amount` from it, set its `amount`, and `break`. -/
def routePass2 (wage : ℚ) : List FComp → ℚ × List FComp
  | [] => (0, [])
  | c :: rest =>
    if c.name = "Basic" then
      let ba := if c.ctype = CompType.Percentage then wage * c.value / 100 else c.value
      (ba, { c with amount := ba } :: rest)
    else
      let p := routePass2 wage rest
      (p.1, c :: p.2)

/-- Third pass of the route (lines 372–390): skip `'Fixed Allowance'`; keep a
component whose `amount` is already positive (the resolved `Basic`); give a
`Fixed` component its literal value; give a `Percentage` component
`basic_amount × value / 100` when its base is `Basic` **and** `basic_amount > 0`,
and `wage × value / 100` otherwise.  Accumulates `total_components`. -/
def routePass3 (wage basic : ℚ) : List FComp → ℚ × List FComp
  | [] => (0, [])
  | c :: rest =>
    if c.name = "Fixed Allowance" then
      let p := routePass3 wage basic rest
      (p.1, c :: p.2)
    else
      let a :=
        if c.amount > 0 then c.amount
        else if c.ctype = CompType.Fixed then c.value
        else if c.base = PctBase.Basic ∧ basic > 0 then basic * c.value / 100
        else wage * c.value / 100
      let p := routePass3 wage basic rest
      (a + p.1, { c with amount := a } :: p.2)

/-- Fourth pass of the route (lines 392–399): the first `'Fixed Allowance'`
component gets `amount = max(0, remaining)` (its `value` is overwritten with
that amount) and the loop `break`s; returns the amount added to the total. -/
def routePass4 (remaining : ℚ) : List FComp → ℚ × List FComp
  | [] => (0, [])
  | c :: rest =>
    if c.name = "Fixed Allowance" then
      let fa := max 0 remaining
      (fa, { c with amount := fa, value := fa } :: rest)
    else
      let p := routePass4 remaining rest
      (p.1, c :: p.2)

/-- Outcome of the route's component resolution and its exceeds-wage check. -/
structure RouteResult where
  comps : List FComp
  basicAmount : ℚ
  othersTotal : ℚ
  total : ℚ
  exceedsWage : Bool
deriving Repr

/-- The `salary_structure` route's resolution (lines 338–403): build
`components_data` with zero amounts, run passes 2–4, and flag the validation
error `total_components > wage + 0.01` (line 402). -/
def routeResolve (wage : ℚ) (rows : List FormRow) : RouteResult :=
  let c1 := rows.map mkFComp
  let p2 := routePass2 wage c1
  let p3 := routePass3 wage p2.1 p2.2
  let p4 := routePass4 (wage - p3.1) p3.2
  let total := p3.1 + p4.1
  { comps := p4.2
    basicAmount := p2.1
    othersTotal := p3.1
    total := total
    exceedsWage := decide (total > wage + 1 / 100) }

/-- Amount of the (first) `'Fixed Allowance'` component in a resolved list,
`0` when absent. -/
def faAmount (comps : List FComp) : ℚ :=
  ((comps.find? (fun c => c.name = "Fixed Allowance")).map (fun c => c.amount)).getD 0

/-- Sum of the `amount` fields of a resolved component list. -/
def amountSum (comps : List FComp) : ℚ :=
  (comps.map (fun c => c.amount)).sum

/-! ### `SalaryComponent.calculate_amount` (`app/models.py`, lines 271–285) -/

/-- Python truthiness of an optional numeric value: `None` and `0` are falsy. -/
def optTruthy (o : Option ℚ) : Bool :=
  match o with
  | some b => decide (b ≠ 0)
  | none => false

/-- `calculate_amount(self, wage, basic_amount=None)`: a `Fixed` component is
its literal value; a `Percentage` component uses `basic_amount` as base only
when `base_for_percentage == 'Basic'` **and** `basic_amount` is truthy
(not `None` and nonzero), else it uses `wage`. -/
def calculateAmount (c : SComp) (wage : ℚ) (basicAmount : Option ℚ) : ℚ :=
  match c.ctype with
  | CompType.Fixed => c.value
  | CompType.Percentage =>
    let base :=
      if c.base = PctBase.Basic ∧ optTruthy basicAmount = true then
        basicAmount.getD 0
      else wage
    base * c.value / 100

/-! ### `PayrollSettings.wage` property (`app/models.py`, lines 191–224) -/

/-- The in-memory state of a `PayrollSettings` row that the `wage` property
reads: the non-persistent `_wage` override, the components relation, and the
legacy `basic_salary` column. -/
structure PaySettings where
  wageOverride : Option ℚ
  components : List SComp
  basicSalary : ℚ
  pfPercentage : ℚ
  professionalTaxAmount : ℚ
deriving Repr

/-- The `wage` property: return `_wage` when set; else, when active
components exist and the sum of the `Fixed` ones is positive, return that
sum (`Percentage` components contribute nothing); else fall back to
`basic_salary` (`0.0` when falsy). -/
def wageProp (s : PaySettings) : ℚ :=
  match s.wageOverride with
  | some w => w
  | none =>
    let comps := activeComps s.components
    let total := ((comps.filter (fun c => c.ctype = CompType.Fixed)).map
      (fun c => c.value)).sum
    if comps ≠ [] ∧ total > 0 then total
    else if s.basicSalary ≠ 0 then s.basicSalary else 0

/-- The wage property as the specification words it: the sum of the values of
the active `Fixed` components when positive, otherwise the legacy
`basic_salary`.  Used to compare against `wageProp`. -/
def specDerivedWage (s : PaySettings) : ℚ :=
  let total := (((activeComps s.components).filter
    (fun c => c.ctype = CompType.Fixed)).map (fun c => c.value)).sum
  if total > 0 then total else s.basicSalary

/-! ### Payroll generation (`app/routes/payroll.py`, `generate`, lines 84–153) -/

/-- Errors the `generate` route surfaces before creating a record. -/
inductive GenErr where
  | duplicatePayroll
  | missingSalaryStructure
  | calcError
deriving DecidableEq, Repr

/-- A row of the `payrolls` table (key columns plus the stored figures). -/
structure PayRecord where
  userId : ℕ
  month : ℕ
  year : ℕ
  grossSalary : ℚ
  netSalary : ℚ
deriving DecidableEq, Repr

/-- The figures `calculate_monthly_salary` hands back to the route. -/
structure SalaryData where
  grossSalary : ℚ
  netSalary : ℚ
deriving DecidableEq, Repr

/-- The `generate` route (lines 107–150): reject with `DuplicatePayroll` when a
record for `(user, month, year)` exists (the caller is redirected to edit);
then reject with `MissingSalaryStructure` when there are no settings or
`settings.wage == 0 and settings.basic_salary == 0`; then abort when the
salary calculation returns nothing; otherwise append the new record.  The
error cases leave the record list unchanged. -/
def generatePayroll (recs : List PayRecord) (uid m y : ℕ)
    (settings : Option PaySettings) (salaryData : Option SalaryData) :
    Except GenErr (List PayRecord) :=
  match recs.find? (fun r => r.userId = uid ∧ r.month = m ∧ r.year = y) with
  | some _ => Except.error GenErr.duplicatePayroll
  | none =>
    match settings with
    | none => Except.error GenErr.missingSalaryStructure
    | some s =>
      if wageProp s = 0 ∧ s.basicSalary = 0 then
        Except.error GenErr.missingSalaryStructure
      else
        match salaryData with
        | none => Except.error GenErr.calcError
        | some d =>
          Except.ok (recs ++ [PayRecord.mk uid m y d.grossSalary d.netSalary])

/-! ### Attendance event log (`app/models.py` `AttendanceLog`,
`app/routes/attendance.py` `checkin`/`checkout`)

Timestamps are seconds since midnight, as exact rationals; a wall-clock
delta `datetime.combine(date, t2) - datetime.combine(date, t1)` on the same
date is `t2 - t1` seconds. -/

/-- `AttendanceLog.log_type`: `'check_in'` or `'check_out'`. -/
inductive LogType where
  | check_in
  | check_out
deriving DecidableEq, Repr

/-- An `AttendanceLog` row (its type and its time-of-day in seconds). -/
structure AttLog where
  logType : LogType
  timestamp : ℚ
deriving DecidableEq, Repr

/-- `Attendance.calculate_working_hours` (`app/models.py`, lines 90–118),
as a state machine over the log list: state `none` is the outer scan at
index `i` looking for a `check_in`; state `some tIn` is the inner scan at
index `j` looking for the next `check_out` (intervening entries are
skipped).  A matched pair adds `(t_out − t_in)/3600` hours; a `check_in`
with no later `check_out` adds nothing (the loop `break`s). -/
def modelHoursAux : Option ℚ → List AttLog → ℚ
  | _, [] => 0
  | none, l :: rest =>
    if l.logType = LogType.check_in then modelHoursAux (some l.timestamp) rest
    else modelHoursAux none rest
  | some tIn, l :: rest =>
    if l.logType = LogType.check_out then
      (l.timestamp - tIn) / 3600 + modelHoursAux none rest
    else
      modelHoursAux (some tIn) rest

/-- `calculate_working_hours`: total hours from the day's ordered logs. -/
def modelWorkingHours (logs : List AttLog) : ℚ :=
  modelHoursAux none logs

/-- The `checkout` route's pairing loop (`app/routes/attendance.py`,
lines 502–514): iterate the logs ordered by id; a `check_in` stores its
timestamp (overwriting any pending one), a `check_out` with a pending
`check_in` adds the duration in seconds and clears it. -/
def routePairSecondsAux : Option ℚ → ℚ → List AttLog → ℚ
  | _, acc, [] => acc
  | pending, acc, l :: rest =>
    if l.logType = LogType.check_in then
      routePairSecondsAux (some l.timestamp) acc rest
    else
      match pending with
      | some tIn => routePairSecondsAux none (acc + (l.timestamp - tIn)) rest
      | none => routePairSecondsAux none acc rest

/-- `total_seconds` accumulated by the `checkout` route over the day's logs. -/
def routePairSeconds (logs : List AttLog) : ℚ :=
  routePairSecondsAux none 0 logs

/-- Python `round(x, 2)` (round half to even at the second decimal),
used at `attendance.working_hours = round(total_seconds / 3600, 2)`. -/
def pyRound2 (q : ℚ) : ℚ :=
  let y := q * 100
  let f : ℤ := Int.floor y
  let r := y - (f : ℚ)
  let n : ℤ :=
    if r < 1 / 2 then f
    else if r > 1 / 2 then f + 1
    else if Even f then f else f + 1
  (n : ℚ) / 100

/-- Attendance-state violations surfaced by the check-in/check-out routes. -/
inductive AttErr where
  | alreadyCheckedIn
  | notCheckedIn
deriving DecidableEq, Repr

/-- One employee-day of attendance state: the ordered event log and the
stored `working_hours` / `extra_hours` columns (both default `0.0`). -/
structure AttDay where
  logs : List AttLog
  workingHours : ℚ
  extraHours : ℚ
deriving DecidableEq, Repr

/-- A fresh `Attendance` row (`status='Present'` aside, which the claims do
not touch): empty log, zero hours. -/
def emptyDay : AttDay :=
  { logs := [], workingHours := 0, extraHours := 0 }

/-- The `checkin` route (lines 383–445): if the most recent log (highest id)
is a `check_in`, reject — "You are already checked in" — leaving everything
unchanged; otherwise (no attendance row, no logs, or last log `check_out`)
append a `check_in` log. -/
def checkinDay (t : ℚ) (d : AttDay) : Except AttErr AttDay :=
  match d.logs.getLast? with
  | some l =>
    if l.logType = LogType.check_in then Except.error AttErr.alreadyCheckedIn
    else Except.ok { d with logs := d.logs ++ [AttLog.mk LogType.check_in t] }
  | none => Except.ok { d with logs := d.logs ++ [AttLog.mk LogType.check_in t] }

/-- The `checkout` route (lines 458–519): if there is no attendance row, no
log, or the last log is a `check_out`, reject — "You need to check in
first" — leaving everything unchanged; otherwise append a `check_out` log
and recompute `working_hours = round(total_seconds/3600, 2)` over all logs.
`extra_hours` is not written. -/
def checkoutDay (t : ℚ) (d : AttDay) : Except AttErr AttDay :=
  match d.logs.getLast? with
  | some l =>
    if l.logType = LogType.check_in then
      let logs2 := d.logs ++ [AttLog.mk LogType.check_out t]
      Except.ok { logs := logs2
                  workingHours := pyRound2 (routePairSeconds logs2 / 3600)
                  extraHours := d.extraHours }
    else Except.error AttErr.notCheckedIn
  | none => Except.error AttErr.notCheckedIn

/-- A user request against one employee-day. -/
inductive AttOp where
  | cin (t : ℚ)
  | cout (t : ℚ)
deriving DecidableEq, Repr

/-- Apply one request: a rejected request leaves the day unchanged (the
route only flashes a warning and redirects). -/
def stepDay (d : AttDay) (op : AttOp) : AttDay :=
  match op with
  | AttOp.cin t =>
    match checkinDay t d with
    | Except.ok d2 => d2
    | Except.error _ => d
  | AttOp.cout t =>
    match checkoutDay t d with
    | Except.ok d2 => d2
    | Except.error _ => d

/-- Run a sequence of requests from the fresh (absent-row) state. -/
def runDay (ops : List AttOp) : AttDay :=
  ops.foldl stepDay emptyDay

/-- The opposite log type. -/
def flipLT (e : LogType) : LogType :=
  if e = LogType.check_in then LogType.check_out else LogType.check_in

/-- Strict alternation of log types, the next expected type given. -/
def alternatesFrom : LogType → List AttLog → Bool
  | _, [] => true
  | e, l :: rest => decide (l.logType = e) && alternatesFrom (flipLT e) rest

/-- The event-log invariant: types alternate `check_in → check_out → …`
starting with `check_in` (a trailing dangling `check_in` is allowed). -/
def alternates (logs : List AttLog) : Bool :=
  alternatesFrom LogType.check_in logs

/-! ### Leave overlap (`app/utils/calculations.py`, `get_approved_leaves`,
lines 58–81)

Dates are modelled as integer day numbers (the source uses `datetime.date`;
`(d2 - d1).days` is the integer difference).  The month window endpoints
`start_date`/`end_date` computed at lines 60–64 are taken as parameters. -/

/-- `Leave.status` column. -/
inductive LeaveStatus where
  | Pending
  | Approved
  | Rejected
deriving DecidableEq, Repr

/-- A row of the `leaves` table (the columns the calculation reads). -/
structure LeaveRec where
  userId : ℕ
  status : LeaveStatus
  startDate : ℤ
  endDate : ℤ
deriving DecidableEq, Repr

/-- The query filter (lines 66–71): this user's `Approved` leaves that touch
the window. -/
def leaveQueryFilter (uid : ℕ) (ws we : ℤ) (l : LeaveRec) : Bool :=
  decide (l.userId = uid) && decide (l.status = LeaveStatus.Approved) &&
    decide (l.startDate ≤ we) && decide (l.endDate ≥ ws)

/-- The accumulation loop (lines 73–79): clip each selected leave to the
window and, when non-empty, add the inclusive day count. -/
def leaveLoop (ws we : ℤ) (total : ℤ) (l : LeaveRec) : ℤ :=
  let ls := max l.startDate ws
  let le := min l.endDate we
  if ls ≤ le then total + (le - ls + 1) else total

/-- `get_approved_leaves(user_id, month, year)` with the month window
`[ws, we]` already computed: filter, then accumulate overlap days. -/
def getApprovedLeaves (uid : ℕ) (leaves : List LeaveRec) (ws we : ℤ) : ℤ :=
  ((leaves.filter (leaveQueryFilter uid ws we)).foldl (leaveLoop ws we) 0)

/-! ## Specification-side definitions used to state the claims -/

/-- The inclusive day count of a leave clipped to the window, `0` when the
clipped interval is empty (the spec's `overlapDays` contribution). -/
def clippedDays (ws we : ℤ) (l : LeaveRec) : ℤ :=
  if max l.startDate ws ≤ min l.endDate we then
    min l.endDate we - max l.startDate ws + 1
  else 0

/-- `Basic`'s amount as the spec states it: literal value when `Fixed`,
`wage × value / 100` when `Percentage`. -/
def basicFormula (wage : ℚ) (c : SComp) : ℚ :=
  if c.ctype = CompType.Percentage then wage * c.value / 100 else c.value

/-- `basicAmount`: computed from the component named `"Basic"`, `0` when the
structure has none. -/
def specBasicAmount (wage : ℚ) (comps : List SComp) : ℚ :=
  match comps.find? (fun c => c.name = "Basic") with
  | some c => basicFormula wage c
  | none => 0

/-- The claimed per-component amount: `Basic` by `basicFormula`; otherwise
literal value when `Fixed`, `wage × value / 100` for `Percentage` of `Wage`,
`basicAmount × value / 100` for `Percentage` of `Basic`. -/
def specAmount (wage basic : ℚ) (c : SComp) : ℚ :=
  if c.name = "Basic" then basicFormula wage c
  else
    match c.ctype, c.base with
    | CompType.Fixed, _ => c.value
    | CompType.Percentage, PctBase.Wage => wage * c.value / 100
    | CompType.Percentage, PctBase.Basic => basic * c.value / 100

/-- Event log made of `n` properly alternating sessions: for each pair
`(tIn, tOut)` a `check_in` at `tIn` followed by a `check_out` at `tOut`. -/
def mkAltLogs : List (ℚ × ℚ) → List AttLog
  | [] => []
  | p :: rest =>
    AttLog.mk LogType.check_in p.1 :: AttLog.mk LogType.check_out p.2 :: mkAltLogs rest

/-- Sum of the per-pair wall-clock deltas, in hours. -/
def pairHoursSum (ps : List (ℚ × ℚ)) : ℚ :=
  (ps.map (fun p => (p.2 - p.1) / 3600)).sum

/-! ## Helper lemmas -/

theorem mapGet_mapInsert (m : AmountMap) (k j : String) (v : ℚ) :
    mapGet (mapInsert m k v) j = if j = k then some v else mapGet m j := by
  induction m with
  | nil =>
    by_cases h : j = k
    · simp [mapInsert, mapGet, List.find?, h]
    · have hkj : ¬ (k = j) := fun hh => h hh.symm
      simp [mapInsert, mapGet, List.find?, h, hkj]
  | cons p rest ih =>
    by_cases hpk : p.1 = k
    · by_cases hjk : j = k
      · simp [mapInsert, mapGet, List.find?, hpk, hjk]
      · have hpj : ¬ (p.1 = j) := by
          rw [hpk]; exact fun h => hjk h.symm
        have hkj : ¬ (k = j) := fun h => hjk h.symm
        simp [mapInsert, mapGet, List.find?, hpk, hjk, hpj, hkj]
    · by_cases hpj : p.1 = j
      · have hjk : ¬ (j = k) := fun h => hpk (hpj.trans h)
        simp [mapInsert, mapGet, List.find?, hpk, hpj, hjk]
      · simp only [mapInsert, if_neg hpk]
        simp only [mapGet, List.find?] at *
        simp [hpj, ih]

theorem mapHasKey_eq_false_iff (m : AmountMap) (k : String) :
    mapHasKey m k = false ↔ mapGet m k = none := by
  induction m with
  | nil => simp [mapHasKey, mapGet, List.find?]
  | cons p rest ih =>
    by_cases hpk : p.1 = k
    · simp [mapHasKey, mapGet, List.find?, hpk]
    · simp only [mapHasKey, mapGet, List.find?] at *
      simp [hpk, ih]

theorem modelHoursAux_pair (a b : ℚ) (rest : List AttLog) :
    modelHoursAux none (AttLog.mk LogType.check_in a :: AttLog.mk LogType.check_out b :: rest)
      = (b - a) / 3600 + modelHoursAux none rest := by
  simp [modelHoursAux]

theorem modelHours_mkAlt (ps : List (ℚ × ℚ)) :
    modelWorkingHours (mkAltLogs ps) = pairHoursSum ps := by
  induction ps with
  | nil => simp [modelWorkingHours, modelHoursAux, mkAltLogs, pairHoursSum]
  | cons p rest ih =>
    simp only [mkAltLogs, modelWorkingHours] at *
    rw [modelHoursAux_pair, ih]
    simp [pairHoursSum]

theorem modelHours_mkAlt_trailing (ps : List (ℚ × ℚ)) (t : ℚ) :
    modelWorkingHours (mkAltLogs ps ++ [AttLog.mk LogType.check_in t]) = pairHoursSum ps := by
  induction ps with
  | nil => simp [modelWorkingHours, modelHoursAux, mkAltLogs, pairHoursSum]
  | cons p rest ih =>
    simp only [mkAltLogs, modelWorkingHours, List.cons_append] at *
    rw [modelHoursAux_pair, ih]
    simp [pairHoursSum]

/-! ## Claim theorems -/

/-- C4: after a successful check-out the code recomputes `working_hours`
only; `extra_hours` is never written, so it keeps its prior value instead of
`max(0, worked − 8.0)`.  At the failing input — one session 09:00→18:00 on a
fresh day — the stored hours are 9.0 but `extra_hours` stays 0.0 where the
claim requires 1.0. -/
theorem C4_checkout_leaves_extra_hours_stale :
    checkoutDay 64800 (AttDay.mk [AttLog.mk LogType.check_in 32400] 0 0)
      = Except.ok (AttDay.mk
          [AttLog.mk LogType.check_in 32400, AttLog.mk LogType.check_out 64800] 9 0)
    ∧ max 0 ((9 : ℚ) - 8) = 1 ∧ (0 : ℚ) ≠ 1 := by
  refine ⟨?_, by norm_num, by norm_num⟩
  have hsec : routePairSeconds
      [AttLog.mk LogType.check_in 32400, AttLog.mk LogType.check_out 64800] = 32400 := by
    have hne : ¬ (LogType.check_out = LogType.check_in) := by decide
    simp only [routePairSeconds, routePairSecondsAux, hne, if_pos, if_neg, if_false]
    norm_num
  have hfloor : Int.floor ((9 : ℚ) * 100) = 900 := by
    rw [show ((9 : ℚ) * 100) = ((900 : ℤ) : ℚ) by norm_num, Int.floor_intCast]
  have hround : pyRound2 (32400 / 3600) = 9 := by
    rw [show ((32400 : ℚ) / 3600) = 9 by norm_num]
    simp only [pyRound2, hfloor]
    norm_num
  simp [checkoutDay, hsec, hround]

/-- C5: `Attendance.calculate_working_hours` pairs each `check_in` with the
next subsequent `check_out` and sums the wall-clock deltas in hours; a
properly alternating sequence of N sessions yields the sum of the per-pair
deltas, and an unmatched trailing `check_in` contributes zero and raises no
error. -/
theorem C5_working_hours_pairing (ps : List (ℚ × ℚ)) (t : ℚ) :
    modelWorkingHours (mkAltLogs ps) = pairHoursSum ps
    ∧ modelWorkingHours (mkAltLogs ps ++ [AttLog.mk LogType.check_in t]) = pairHoursSum ps :=
  ⟨modelHours_mkAlt ps, modelHours_mkAlt_trailing ps t⟩

theorem leaveLoop_eq (ws we : ℤ) (total : ℤ) (l : LeaveRec) :
    leaveLoop ws we total l = total + clippedDays ws we l := by
  simp only [leaveLoop, clippedDays]
  split <;> simp

theorem leave_foldl_eq_sum (ws we : ℤ) (ls : List LeaveRec) (acc : ℤ) :
    ls.foldl (leaveLoop ws we) acc = acc + (ls.map (clippedDays ws we)).sum := by
  induction ls generalizing acc with
  | nil => simp
  | cons l rest ih =>
    simp only [List.foldl_cons, List.map_cons, List.sum_cons, leaveLoop_eq]
    rw [ih]
    ring

theorem clippedDays_of_miss_right (ws we : ℤ) (l : LeaveRec) (h : ¬ l.startDate ≤ we) :
    clippedDays ws we l = 0 := by
  simp only [clippedDays]
  have : ¬ (max l.startDate ws ≤ min l.endDate we) := by
    intro hc
    have h1 : l.startDate ≤ max l.startDate ws := le_max_left _ _
    have h2 : min l.endDate we ≤ we := min_le_right _ _
    exact h (le_trans h1 (le_trans hc h2))
  simp [this]

theorem clippedDays_of_miss_left (ws we : ℤ) (l : LeaveRec) (h : ¬ l.endDate ≥ ws) :
    clippedDays ws we l = 0 := by
  simp only [clippedDays]
  have : ¬ (max l.startDate ws ≤ min l.endDate we) := by
    intro hc
    have h1 : ws ≤ max l.startDate ws := le_max_right _ _
    have h2 : min l.endDate we ≤ l.endDate := min_le_left _ _
    exact h (le_trans h1 (le_trans hc h2))
  simp [this]

/-- Predicate "this user's `Approved` leaves", without the window conditions
of the SQL query. -/
def approvedOf (uid : ℕ) (l : LeaveRec) : Bool :=
  decide (l.userId = uid) && decide (l.status = LeaveStatus.Approved)

theorem sum_clipped_query_eq_approved (uid : ℕ) (ws we : ℤ) (leaves : List LeaveRec) :
    ((leaves.filter (leaveQueryFilter uid ws we)).map (clippedDays ws we)).sum
      = ((leaves.filter (approvedOf uid)).map (clippedDays ws we)).sum := by
  induction leaves with
  | nil => simp
  | cons l rest ih =>
    by_cases hu : l.userId = uid
    · by_cases hs : l.status = LeaveStatus.Approved
      · by_cases h1 : l.startDate ≤ we
        · by_cases h2 : l.endDate ≥ ws
          · simp [leaveQueryFilter, approvedOf, hu, hs, h1, h2, List.filter_cons, ih]
          · have hz := clippedDays_of_miss_left ws we l h2
            simp [leaveQueryFilter, approvedOf, hu, hs, h1, h2, List.filter_cons, ih, hz]
        · have hz := clippedDays_of_miss_right ws we l h1
          simp [leaveQueryFilter, approvedOf, hu, hs, h1, List.filter_cons, ih, hz]
      · simp [leaveQueryFilter, approvedOf, hu, hs, List.filter_cons, ih]
    · simp [leaveQueryFilter, approvedOf, hu, List.filter_cons, ih]

/-- C7: the leave-overlap calculation clips each of this user's `Approved`
intervals to the window and adds the inclusive day count of each non-empty
clipped interval, summing overlapping intervals independently (the total
over a concatenation of two leave lists is the sum of the totals, with no
de-duplication); the spec's instance — interval `[Jan 10, Jan 20]` windowed
to `[Jan 15, Jan 31]` — yields 6 days. -/
theorem C7_leave_overlap_days (uid : ℕ) (ws we : ℤ) (leaves l1 l2 : List LeaveRec) :
    getApprovedLeaves uid leaves ws we
      = ((leaves.filter (approvedOf uid)).map (clippedDays ws we)).sum
    ∧ getApprovedLeaves uid (l1 ++ l2) ws we
      = getApprovedLeaves uid l1 ws we + getApprovedLeaves uid l2 ws we
    ∧ getApprovedLeaves 1 [LeaveRec.mk 1 LeaveStatus.Approved 10 20] 15 31 = 6 := by
  refine ⟨?_, ?_, by decide⟩
  · rw [getApprovedLeaves, leave_foldl_eq_sum, zero_add, sum_clipped_query_eq_approved]
  · simp only [getApprovedLeaves, List.filter_append, List.foldl_append]
    rw [leave_foldl_eq_sum, leave_foldl_eq_sum, leave_foldl_eq_sum]
    ring

theorem alternatesFrom_append (e : LogType) (s : List AttLog) (l : AttLog) :
    alternatesFrom e (s ++ [l])
      = (alternatesFrom e s && decide (l.logType = flipLT^[s.length] e)) := by
  induction s generalizing e with
  | nil => simp [alternatesFrom]
  | cons a rest ih =>
    simp only [List.cons_append, alternatesFrom, List.length_cons, List.append_eq, ih,
      Function.iterate_succ_apply, Bool.and_assoc]

theorem alternatesFrom_last (e : LogType) (s : List AttLog) (l : AttLog)
    (h : alternatesFrom e s = true) (hl : s.getLast? = some l) :
    flipLT^[s.length] e = flipLT l.logType := by
  induction s generalizing e with
  | nil => simp at hl
  | cons a rest ih =>
    simp only [alternatesFrom, Bool.and_eq_true, decide_eq_true_eq] at h
    cases rest with
    | nil =>
      simp only [List.getLast?] at hl
      cases hl
      simp [Function.iterate_succ_apply, Function.iterate_zero, h.1]
    | cons b tail =>
      have hl2 : (b :: tail).getLast? = some l := by
        rw [List.getLast?_cons_cons] at hl
        exact hl
      have := ih (flipLT e) h.2 hl2
      simpa [Function.iterate_succ_apply] using this

theorem flipLT_flipLT (e : LogType) : flipLT (flipLT e) = e := by
  cases e <;> decide

theorem alternates_append_check_in (s : List AttLog) (t : ℚ)
    (h : alternates s = true)
    (hg : s.getLast? = none ∨ ∃ l, s.getLast? = some l ∧ l.logType = LogType.check_out) :
    alternates (s ++ [AttLog.mk LogType.check_in t]) = true := by
  rcases hg with hnone | ⟨l, hl, hout⟩
  · have hs : s = [] := List.getLast?_eq_none_iff.mp hnone
    subst hs
    simp [alternates, alternatesFrom]
  · have hiter := alternatesFrom_last LogType.check_in s l h hl
    have h2 : alternatesFrom LogType.check_in s = true := h
    rw [alternates, alternatesFrom_append, h2, Bool.true_and, hiter, hout]
    simp [flipLT]

theorem alternates_append_check_out (s : List AttLog) (t : ℚ)
    (h : alternates s = true)
    (hg : ∃ l, s.getLast? = some l ∧ l.logType = LogType.check_in) :
    alternates (s ++ [AttLog.mk LogType.check_out t]) = true := by
  rcases hg with ⟨l, hl, hin⟩
  have hiter := alternatesFrom_last LogType.check_in s l h hl
  have h2 : alternatesFrom LogType.check_in s = true := h
  rw [alternates, alternatesFrom_append, h2, Bool.true_and, hiter, hin]
  simp [flipLT]

theorem stepDay_preserves_alternates (d : AttDay) (op : AttOp)
    (h : alternates d.logs = true) : alternates (stepDay d op).logs = true := by
  cases op with
  | cin t =>
    simp only [stepDay, checkinDay]
    cases hl : d.logs.getLast? with
    | none =>
      exact alternates_append_check_in d.logs t h (Or.inl hl)
    | some l =>
      by_cases hin : l.logType = LogType.check_in
      · simp only [hin, if_pos rfl]
        exact h
      · have hout : l.logType = LogType.check_out := by
          cases he : l.logType
          · exact absurd he hin
          · rfl
        simp only [if_neg hin]
        exact alternates_append_check_in d.logs t h (Or.inr ⟨l, hl, hout⟩)
  | cout t =>
    simp only [stepDay, checkoutDay]
    cases hl : d.logs.getLast? with
    | none => exact h
    | some l =>
      by_cases hin : l.logType = LogType.check_in
      · simp only [if_pos hin]
        exact alternates_append_check_out d.logs t h ⟨l, hl, hin⟩
      · simp only [if_neg hin]
        exact h

theorem foldl_stepDay_alternates (d : AttDay) (h : alternates d.logs = true)
    (ops : List AttOp) : alternates (ops.foldl stepDay d).logs = true := by
  induction ops generalizing d with
  | nil => exact h
  | cons op rest ih =>
    exact ih (stepDay d op) (stepDay_preserves_alternates d op h)

/-- C6: the stored event log of one employee-day always alternates
`check_in → check_out` with at most one dangling trailing `check_in`
(strict alternation starting with `check_in`); a check-in while the most
recent event is a `check_in` fails with the already-checked-in rejection,
and a check-out when the last event is a `check_out` or no event exists
fails with the not-checked-in rejection, each leaving the day unchanged. -/
theorem C6_log_alternation_and_guards (d : AttDay) (t : ℚ) (ops : List AttOp) :
    ((∃ l, d.logs.getLast? = some l ∧ l.logType = LogType.check_in) →
      checkinDay t d = Except.error AttErr.alreadyCheckedIn ∧ stepDay d (AttOp.cin t) = d)
    ∧ ((d.logs.getLast? = none ∨
        ∃ l, d.logs.getLast? = some l ∧ l.logType = LogType.check_out) →
      checkoutDay t d = Except.error AttErr.notCheckedIn ∧ stepDay d (AttOp.cout t) = d)
    ∧ alternates (runDay ops).logs = true := by
  refine ⟨?_, ?_, foldl_stepDay_alternates emptyDay (by decide) ops⟩
  · rintro ⟨l, hl, hin⟩
    have herr : checkinDay t d = Except.error AttErr.alreadyCheckedIn := by
      simp [checkinDay, hl, hin]
    exact ⟨herr, by simp [stepDay, herr]⟩
  · intro hg
    have herr : checkoutDay t d = Except.error AttErr.notCheckedIn := by
      rcases hg with hnone | ⟨l, hl, hout⟩
      · simp [checkoutDay, hnone]
      · have hne : ¬ (l.logType = LogType.check_in) := by
          rw [hout]; decide
        simp [checkoutDay, hl, hne]
    exact ⟨herr, by simp [stepDay, herr]⟩

/-- Witness for C6 at concrete inputs: a second consecutive check-in on a
day whose last event is a check-in is rejected, a check-out on a fresh day
is rejected, and a run of two full sessions keeps the log alternating. -/
theorem C6_log_alternation_and_guards_witness :
    checkinDay 2 (AttDay.mk [AttLog.mk LogType.check_in 1] 0 0)
      = Except.error AttErr.alreadyCheckedIn
    ∧ checkoutDay 2 (AttDay.mk [] 0 0) = Except.error AttErr.notCheckedIn
    ∧ alternates (runDay [AttOp.cin 1, AttOp.cin 2, AttOp.cout 3, AttOp.cout 4]).logs
        = true :=
  ⟨((C6_log_alternation_and_guards (AttDay.mk [AttLog.mk LogType.check_in 1] 0 0) 2
      []).1 ⟨AttLog.mk LogType.check_in 1, rfl, rfl⟩).1,
   ((C6_log_alternation_and_guards (AttDay.mk [] 0 0) 2 []).2.1 (Or.inl rfl)).1,
   (C6_log_alternation_and_guards (AttDay.mk [] 0 0) 2
      [AttOp.cin 1, AttOp.cin 2, AttOp.cout 3, AttOp.cout 4]).2.2⟩

theorem generatePayroll_duplicate (recs : List PayRecord) (uid m y : ℕ)
    (settings : Option PaySettings) (salaryData : Option SalaryData) (r : PayRecord)
    (hr : r ∈ recs) (hu : r.userId = uid) (hm : r.month = m) (hy : r.year = y) :
    generatePayroll recs uid m y settings salaryData = Except.error GenErr.duplicatePayroll := by
  have hfind : (recs.find? (fun r => decide (r.userId = uid ∧ r.month = m ∧ r.year = y))).isSome := by
    apply List.find?_isSome.mpr
    exact ⟨r, hr, by simp [hu, hm, hy]⟩
  rw [generatePayroll.eq_def]
  cases hf : recs.find? (fun r => decide (r.userId = uid ∧ r.month = m ∧ r.year = y)) with
  | none => rw [hf] at hfind; simp at hfind
  | some q => rfl

/-- C8: generating payroll when a record for the same `(employee, month,
year)` already exists fails with the duplicate-payroll rejection (the caller
is redirected to edit), creating nothing and leaving the existing records
untouched; in particular a successful generation appends exactly one record
and an immediately repeated generation for the same key fails with the
duplicate rejection, the first record still present unchanged. -/
theorem C8_duplicate_payroll_guard (recs recs2 : List PayRecord) (uid m y : ℕ)
    (st st2 : Option PaySettings) (sd sd2 : Option SalaryData) :
    ((∃ r ∈ recs, r.userId = uid ∧ r.month = m ∧ r.year = y) →
      generatePayroll recs uid m y st sd = Except.error GenErr.duplicatePayroll)
    ∧ (generatePayroll recs uid m y st sd = Except.ok recs2 →
      ∃ d : SalaryData, recs2 = recs ++ [PayRecord.mk uid m y d.grossSalary d.netSalary]
        ∧ generatePayroll recs2 uid m y st2 sd2 = Except.error GenErr.duplicatePayroll) := by
  constructor
  · rintro ⟨r, hr, hu, hm, hy⟩
    exact generatePayroll_duplicate recs uid m y st sd r hr hu hm hy
  · intro hok
    rw [generatePayroll.eq_def] at hok
    cases hf : recs.find? (fun r => decide (r.userId = uid ∧ r.month = m ∧ r.year = y)) with
    | some q => rw [hf] at hok; exact absurd hok (by simp)
    | none =>
      rw [hf] at hok
      cases st with
      | none => exact absurd hok (by simp)
      | some s =>
        simp only at hok
        by_cases hw : wageProp s = 0 ∧ s.basicSalary = 0
        · rw [if_pos hw] at hok
          exact absurd hok (by simp)
        · rw [if_neg hw] at hok
          cases sd with
          | none => exact absurd hok (by simp)
          | some d =>
            simp only [Except.ok.injEq] at hok
            refine ⟨d, hok.symm, ?_⟩
            apply generatePayroll_duplicate recs2 uid m y st2 sd2
              (PayRecord.mk uid m y d.grossSalary d.netSalary)
            · rw [← hok]
              exact List.mem_append_right recs (List.mem_singleton.mpr rfl)
            · rfl
            · rfl
            · rfl

/-- Witness for C8 at concrete inputs: with an existing June-2024 record for
employee 1 the generation is rejected as a duplicate, and a fresh
generation followed by a retry for the same key appends one record and then
rejects. -/
theorem C8_duplicate_payroll_guard_witness :
    generatePayroll [PayRecord.mk 1 6 2024 100 90] 1 6 2024 none none
      = Except.error GenErr.duplicatePayroll
    ∧ ∃ d : SalaryData,
        [PayRecord.mk 1 6 2024 100 90] = ([] : List PayRecord)
          ++ [PayRecord.mk 1 6 2024 d.grossSalary d.netSalary]
        ∧ generatePayroll [PayRecord.mk 1 6 2024 100 90] 1 6 2024
            (some (PaySettings.mk (some 100) [] 0 12 200)) (some (SalaryData.mk 100 90))
          = Except.error GenErr.duplicatePayroll := by
  constructor
  · exact (C8_duplicate_payroll_guard [PayRecord.mk 1 6 2024 100 90] [] 1 6 2024
      none none none none).1 ⟨PayRecord.mk 1 6 2024 100 90, by simp, rfl, rfl, rfl⟩
  · exact (C8_duplicate_payroll_guard [] [PayRecord.mk 1 6 2024 100 90] 1 6 2024
      (some (PaySettings.mk (some 100) [] 0 12 200))
      (some (PaySettings.mk (some 100) [] 0 12 200))
      (some (SalaryData.mk 100 90)) (some (SalaryData.mk 100 90))).2 (by rfl)

/-! ## First/second-pass characterization of the `calculate_monthly_salary`
resolver -/

/-- The value the first pass stores for a component, `none` when the first
pass skips it (a non-`Basic` `Percentage`-of-`Basic` component). -/
def firstPassVal (wage : ℚ) (c : SComp) : Option ℚ :=
  if c.name = "Basic" then some (basicFormula wage c)
  else if c.ctype = CompType.Fixed then some c.value
  else if c.ctype = CompType.Percentage ∧ c.base = PctBase.Wage then
    some (wage * c.value / 100)
  else none

theorem calcFirstPass_basic_not_mem (wage : ℚ) (comps : List SComp) (b0 : ℚ)
    (m0 : AmountMap) (h : ∀ c ∈ comps, c.name ≠ "Basic") :
    (calcFirstPass wage comps b0 m0).1 = b0 := by
  induction comps generalizing m0 with
  | nil => simp [calcFirstPass]
  | cons c rest ih =>
    have hc : ¬ (c.name = "Basic") := h c (List.mem_cons_self c rest)
    have hrest : ∀ d ∈ rest, d.name ≠ "Basic" := fun d hd => h d (List.mem_cons_of_mem c hd)
    by_cases hf : c.ctype = CompType.Fixed
    · simp only [calcFirstPass, if_neg hc, if_pos hf]
      exact ih _ hrest
    · by_cases hp : c.ctype = CompType.Percentage ∧ c.base = PctBase.Wage
      · simp only [calcFirstPass, if_neg hc, if_neg hf, if_pos hp]
        exact ih _ hrest
      · simp only [calcFirstPass, if_neg hc, if_neg hf, if_neg hp]
        exact ih _ hrest

theorem calcFirstPass_basic (wage : ℚ) (comps : List SComp) (m0 : AmountMap)
    (hnd : (comps.map SComp.name).Nodup) :
    (calcFirstPass wage comps 0 m0).1 = specBasicAmount wage comps := by
  induction comps generalizing m0 with
  | nil => simp [calcFirstPass, specBasicAmount, List.find?]
  | cons c rest ih =>
    have hpair : (∀ x ∈ rest, ¬ x.name = c.name) ∧ (rest.map SComp.name).Nodup := by
      simpa using hnd
    by_cases hc : c.name = "Basic"
    · have hrest : ∀ d ∈ rest, d.name ≠ "Basic" := by
        intro d hd hdb
        exact hpair.1 d hd (hdb.trans hc.symm)
      have hspec : specBasicAmount wage (c :: rest) = basicFormula wage c := by
        simp [specBasicAmount, List.find?, hc]
      rw [hspec]
      simp only [calcFirstPass, if_pos hc]
      rw [calcFirstPass_basic_not_mem wage rest _ _ hrest]
      simp [basicFormula]
    · have hspec : specBasicAmount wage (c :: rest) = specBasicAmount wage rest := by
        simp [specBasicAmount, List.find?, hc]
      rw [hspec]
      by_cases hf : c.ctype = CompType.Fixed
      · simp only [calcFirstPass, if_neg hc, if_pos hf]
        exact ih _ hpair.2
      · by_cases hp : c.ctype = CompType.Percentage ∧ c.base = PctBase.Wage
        · simp only [calcFirstPass, if_neg hc, if_neg hf, if_pos hp]
          exact ih _ hpair.2
        · simp only [calcFirstPass, if_neg hc, if_neg hf, if_neg hp]
          exact ih _ hpair.2

theorem calcFirstPass_get_preserved (wage : ℚ) (comps : List SComp) (b0 : ℚ)
    (m0 : AmountMap) (k : String) (h : ∀ c ∈ comps, c.name ≠ k) :
    mapGet (calcFirstPass wage comps b0 m0).2 k = mapGet m0 k := by
  induction comps generalizing b0 m0 with
  | nil => simp [calcFirstPass]
  | cons c rest ih =>
    have hck : ¬ (k = c.name) := fun hk =>
      (h c (List.mem_cons_self c rest)) hk.symm
    have hrest : ∀ d ∈ rest, d.name ≠ k := fun d hd => h d (List.mem_cons_of_mem c hd)
    by_cases hc : c.name = "Basic"
    · simp only [calcFirstPass, if_pos hc]
      rw [ih _ _ hrest, mapGet_mapInsert, if_neg hck]
    · by_cases hf : c.ctype = CompType.Fixed
      · simp only [calcFirstPass, if_neg hc, if_pos hf]
        rw [ih _ _ hrest, mapGet_mapInsert, if_neg hck]
      · by_cases hp : c.ctype = CompType.Percentage ∧ c.base = PctBase.Wage
        · simp only [calcFirstPass, if_neg hc, if_neg hf, if_pos hp]
          rw [ih _ _ hrest, mapGet_mapInsert, if_neg hck]
        · simp only [calcFirstPass, if_neg hc, if_neg hf, if_neg hp]
          exact ih _ _ hrest

theorem calcFirstPass_get_mem (wage : ℚ) (comps : List SComp) (b0 : ℚ)
    (m0 : AmountMap) (c : SComp) (hnd : (comps.map SComp.name).Nodup)
    (hc : c ∈ comps) :
    mapGet (calcFirstPass wage comps b0 m0).2 c.name
      = match firstPassVal wage c with
        | some v => some v
        | none => mapGet m0 c.name := by
  induction comps generalizing b0 m0 with
  | nil => exact absurd hc (List.not_mem_nil c)
  | cons d rest ih =>
    have hpair : (∀ x ∈ rest, ¬ x.name = d.name) ∧ (rest.map SComp.name).Nodup := by
      simpa using hnd
    rcases List.mem_cons.mp hc with hdc | hcr
    · subst hdc
      have hrest : ∀ e ∈ rest, e.name ≠ c.name := fun e he => hpair.1 e he
      by_cases hb : c.name = "Basic"
      · simp only [calcFirstPass, if_pos hb]
        rw [calcFirstPass_get_preserved wage rest _ _ _ hrest, mapGet_mapInsert,
          if_pos rfl]
        simp [firstPassVal, hb, basicFormula]
      · by_cases hf : c.ctype = CompType.Fixed
        · simp only [calcFirstPass, if_neg hb, if_pos hf]
          rw [calcFirstPass_get_preserved wage rest _ _ _ hrest, mapGet_mapInsert,
            if_pos rfl]
          simp [firstPassVal, hb, hf]
        · by_cases hp : c.ctype = CompType.Percentage ∧ c.base = PctBase.Wage
          · simp only [calcFirstPass, if_neg hb, if_neg hf, if_pos hp]
            rw [calcFirstPass_get_preserved wage rest _ _ _ hrest, mapGet_mapInsert,
              if_pos rfl]
            simp [firstPassVal, hb, hf, hp]
          · simp only [calcFirstPass, if_neg hb, if_neg hf, if_neg hp]
            rw [calcFirstPass_get_preserved wage rest _ _ _ hrest]
            simp [firstPassVal, hb, hf, hp]
    · have hdc : ¬ (c.name = d.name) := by
        intro hk
        have : d.name ∈ rest.map SComp.name := hk ▸ List.mem_map_of_mem SComp.name hcr
        have hnotin : d.name ∉ rest.map SComp.name := by
          intro hmem
          rcases List.mem_map.mp hmem with ⟨x, hx, hxe⟩
          exact hpair.1 x hx hxe
        exact hnotin this
      by_cases hb : d.name = "Basic"
      · simp only [calcFirstPass, if_pos hb]
        rw [ih _ _ hpair.2 hcr]
        cases hfp : firstPassVal wage c with
        | some v => rfl
        | none => rw [mapGet_mapInsert, if_neg hdc]
      · by_cases hf : d.ctype = CompType.Fixed
        · simp only [calcFirstPass, if_neg hb, if_pos hf]
          rw [ih _ _ hpair.2 hcr]
          cases hfp : firstPassVal wage c with
          | some v => rfl
          | none => rw [mapGet_mapInsert, if_neg hdc]
        · by_cases hp : d.ctype = CompType.Percentage ∧ d.base = PctBase.Wage
          · simp only [calcFirstPass, if_neg hb, if_neg hf, if_pos hp]
            rw [ih _ _ hpair.2 hcr]
            cases hfp : firstPassVal wage c with
            | some v => rfl
            | none => rw [mapGet_mapInsert, if_neg hdc]
          · simp only [calcFirstPass, if_neg hb, if_neg hf, if_neg hp]
            exact ih _ _ hpair.2 hcr

theorem calcSecondPass_get_present (basic : ℚ) (comps : List SComp)
    (m : AmountMap) (k : String) (v : ℚ) (hv : mapGet m k = some v) :
    mapGet (calcSecondPass basic comps m) k = some v := by
  induction comps generalizing m with
  | nil => simpa [calcSecondPass] using hv
  | cons c rest ih =>
    by_cases hg : ¬ mapHasKey m c.name ∧ c.ctype = CompType.Percentage ∧
        c.base = PctBase.Basic
    · have hkc : ¬ (k = c.name) := by
        intro hk
        rcases hg with ⟨h1, _⟩
        have hfalse : mapHasKey m c.name = false := by
          cases hb : mapHasKey m c.name
          · rfl
          · exact absurd hb h1
        have hnone : mapGet m c.name = none := (mapHasKey_eq_false_iff m c.name).mp hfalse
        rw [hk, hnone] at hv
        exact Option.noConfusion hv
      simp only [calcSecondPass, if_pos hg]
      exact ih _ (by rw [mapGet_mapInsert, if_neg hkc]; exact hv)
    · simp only [calcSecondPass, if_neg hg]
      exact ih _ hv

theorem calcSecondPass_get_preserved (basic : ℚ) (comps : List SComp)
    (m : AmountMap) (k : String) (h : ∀ c ∈ comps, c.name ≠ k) :
    mapGet (calcSecondPass basic comps m) k = mapGet m k := by
  induction comps generalizing m with
  | nil => simp [calcSecondPass]
  | cons c rest ih =>
    have hck : ¬ (k = c.name) := fun hk =>
      (h c (List.mem_cons_self c rest)) hk.symm
    have hrest : ∀ d ∈ rest, d.name ≠ k := fun d hd => h d (List.mem_cons_of_mem c hd)
    by_cases hg : ¬ mapHasKey m c.name ∧ c.ctype = CompType.Percentage ∧
        c.base = PctBase.Basic
    · simp only [calcSecondPass, if_pos hg]
      rw [ih _ hrest, mapGet_mapInsert, if_neg hck]
    · simp only [calcSecondPass, if_neg hg]
      exact ih _ hrest

theorem calcSecondPass_get_insert (basic : ℚ) (comps : List SComp)
    (m : AmountMap) (c : SComp) (hnd : (comps.map SComp.name).Nodup)
    (hc : c ∈ comps) (hnone : mapGet m c.name = none)
    (hp : c.ctype = CompType.Percentage) (hb : c.base = PctBase.Basic) :
    mapGet (calcSecondPass basic comps m) c.name = some (basic * c.value / 100) := by
  induction comps generalizing m with
  | nil => exact absurd hc (List.not_mem_nil c)
  | cons d rest ih =>
    have hpair : (∀ x ∈ rest, ¬ x.name = d.name) ∧ (rest.map SComp.name).Nodup := by
      simpa using hnd
    rcases List.mem_cons.mp hc with hdc | hcr
    · subst hdc
      have hg : ¬ mapHasKey m c.name ∧ c.ctype = CompType.Percentage ∧
          c.base = PctBase.Basic := by
        refine ⟨?_, hp, hb⟩
        intro hk
        rw [(mapHasKey_eq_false_iff m c.name).mpr] at hk
        · exact Bool.noConfusion hk
        · exact hnone
      simp only [calcSecondPass, if_pos hg]
      exact calcSecondPass_get_present basic rest _ c.name _
        (by rw [mapGet_mapInsert, if_pos rfl])
    · have hdc : ¬ (c.name = d.name) := by
        intro hk
        exact hpair.1 c hcr hk
      by_cases hg : ¬ mapHasKey m d.name ∧ d.ctype = CompType.Percentage ∧
          d.base = PctBase.Basic
      · simp only [calcSecondPass, if_pos hg]
        exact ih _ hpair.2 hcr (by rw [mapGet_mapInsert, if_neg hdc]; exact hnone)
      · simp only [calcSecondPass, if_neg hg]
        exact ih _ hpair.2 hcr hnone

/-- Lookup in the final `component_amounts` of `calcResolveComponents` for a
non-remainder component, when a `'Fixed Allowance'` remainder exists. -/
theorem calcResolve_get (wage : ℚ) (comps : List SComp) (c : SComp)
    (hnd : (comps.map SComp.name).Nodup)
    (hFA : comps.any (fun d => d.name = "Fixed Allowance") = true)
    (hc : c ∈ comps) (hcFA : c.name ≠ "Fixed Allowance") :
    mapGet (calcResolveComponents wage comps).amounts c.name
      = some (specAmount wage (specBasicAmount wage comps) c) := by
  have hcFA2 : ¬ (c.name = "Fixed Allowance") := hcFA
  simp only [calcResolveComponents, if_pos hFA]
  rw [mapGet_mapInsert, if_neg hcFA2]
  rw [calcFirstPass_basic wage comps [] hnd]
  by_cases hskip : c.name ≠ "Basic" ∧ c.ctype = CompType.Percentage ∧
      c.base = PctBase.Basic
  · rcases hskip with ⟨hnb, hp, hb⟩
    have hfirst : mapGet (calcFirstPass wage comps 0 []).2 c.name = none := by
      rw [calcFirstPass_get_mem wage comps 0 [] c hnd hc]
      have : firstPassVal wage c = none := by
        simp [firstPassVal, hnb, hp, hb]
      rw [this]
      simp [mapGet, List.find?]
    rw [calcSecondPass_get_insert _ comps _ c hnd hc hfirst hp hb]
    have : specAmount wage (specBasicAmount wage comps) c
        = specBasicAmount wage comps * c.value / 100 := by
      simp only [specAmount, if_neg (by exact fun h => hnb h), hp, hb]
    rw [this]
  · have hfp : firstPassVal wage c
        = some (specAmount wage (specBasicAmount wage comps) c) := by
      by_cases hnb : c.name = "Basic"
      · simp [firstPassVal, specAmount, hnb]
      · push_neg at hskip
        have hskip2 := hskip hnb
        cases hct : c.ctype with
        | Fixed => simp [firstPassVal, specAmount, hnb, hct]
        | Percentage =>
          cases hcb : c.base with
          | Wage => simp [firstPassVal, specAmount, hnb, hct, hcb]
          | Basic => exact absurd hcb (hskip2 hct)
    have hfirst : mapGet (calcFirstPass wage comps 0 []).2 c.name
        = some (specAmount wage (specBasicAmount wage comps) c) := by
      rw [calcFirstPass_get_mem wage comps 0 [] c hnd hc, hfp]
    exact calcSecondPass_get_present _ comps _ c.name _ hfirst

/-- C1: in the component resolver of `calculate_monthly_salary`, the
component named `Basic` resolves to its literal value when `Fixed` and to
`wage × value / 100` when `Percentage`, and every other active non-remainder
component resolves to its literal value when `Fixed`, `wage × value / 100`
when `Percentage` of `Wage`, and `basicAmount × value / 100` when
`Percentage` of `Basic` (all encoded by `specAmount`); in particular, for
wage 50000 with `Basic` (Percentage 50 of Wage), `HRA` (Percentage 50 of
Basic) and a `Fixed Allowance` remainder, the resolved amounts are
25000 / 12500 / 12500 and sum to exactly 50000. -/
theorem C1_resolver_component_amounts (wage : ℚ) (comps : List SComp) (c : SComp)
    (hnd : ((activeComps comps).map SComp.name).Nodup)
    (hFA : (activeComps comps).any (fun d => d.name = "Fixed Allowance") = true)
    (hc : c ∈ activeComps comps) (hcFA : c.name ≠ "Fixed Allowance") :
    mapGet (calcResolveComponents wage (activeComps comps)).amounts c.name
      = some (specAmount wage (specBasicAmount wage (activeComps comps)) c)
    ∧ (calcResolveComponents 50000
        [SComp.mk "Basic" CompType.Percentage 50 PctBase.Wage 1 true,
         SComp.mk "HRA" CompType.Percentage 50 PctBase.Basic 2 true,
         SComp.mk "Fixed Allowance" CompType.Fixed 0 PctBase.Wage 3 true]).amounts
      = [("Basic", 25000), ("Fixed Allowance", 12500), ("HRA", 12500)]
    ∧ mapSum (calcResolveComponents 50000
        [SComp.mk "Basic" CompType.Percentage 50 PctBase.Wage 1 true,
         SComp.mk "HRA" CompType.Percentage 50 PctBase.Basic 2 true,
         SComp.mk "Fixed Allowance" CompType.Fixed 0 PctBase.Wage 3 true]).amounts
      = 50000 := by
  refine ⟨calcResolve_get wage (activeComps comps) c hnd hFA hc hcFA, ?_, ?_⟩ <;>
    · simp [calcResolveComponents, calcFirstPass, calcSecondPass, mapInsert, mapGet,
        mapSum, mapHasKey, List.find?, List.any]
      norm_num

/-- Witness for C1 at the spec's concrete structure: the `HRA` component
(`Percentage` 50 of `Basic`) resolves to `specAmount`, i.e. 12500. -/
theorem C1_resolver_component_amounts_witness :
    mapGet (calcResolveComponents 50000 (activeComps
        [SComp.mk "Basic" CompType.Percentage 50 PctBase.Wage 1 true,
         SComp.mk "HRA" CompType.Percentage 50 PctBase.Basic 2 true,
         SComp.mk "Fixed Allowance" CompType.Fixed 0 PctBase.Wage 3 true])).amounts
      "HRA"
      = some (specAmount 50000 (specBasicAmount 50000 (activeComps
        [SComp.mk "Basic" CompType.Percentage 50 PctBase.Wage 1 true,
         SComp.mk "HRA" CompType.Percentage 50 PctBase.Basic 2 true,
         SComp.mk "Fixed Allowance" CompType.Fixed 0 PctBase.Wage 3 true]))
        (SComp.mk "HRA" CompType.Percentage 50 PctBase.Basic 2 true))
      ∧ specAmount 50000 (specBasicAmount 50000 (activeComps
        [SComp.mk "Basic" CompType.Percentage 50 PctBase.Wage 1 true,
         SComp.mk "HRA" CompType.Percentage 50 PctBase.Basic 2 true,
         SComp.mk "Fixed Allowance" CompType.Fixed 0 PctBase.Wage 3 true]))
        (SComp.mk "HRA" CompType.Percentage 50 PctBase.Basic 2 true) = 12500 :=
  ⟨(C1_resolver_component_amounts 50000
      [SComp.mk "Basic" CompType.Percentage 50 PctBase.Wage 1 true,
       SComp.mk "HRA" CompType.Percentage 50 PctBase.Basic 2 true,
       SComp.mk "Fixed Allowance" CompType.Fixed 0 PctBase.Wage 3 true]
      (SComp.mk "HRA" CompType.Percentage 50 PctBase.Basic 2 true)
      (by decide) (by decide) (by decide) (by decide)).1, by
    simp [specAmount, specBasicAmount, basicFormula, activeComps, List.find?]
    norm_num⟩

/-! ## Characterization of the route resolver passes -/

/-- The amount the route's third pass assigns to a non-remainder component. -/
def pass3Amount (wage basic : ℚ) (c : FComp) : ℚ :=
  if c.amount > 0 then c.amount
  else if c.ctype = CompType.Fixed then c.value
  else if c.base = PctBase.Basic ∧ basic > 0 then basic * c.value / 100
  else wage * c.value / 100

/-- `'Fixed Allowance'` test on a resolved component. -/
def isFA (c : FComp) : Bool := decide (c.name = "Fixed Allowance")

theorem routePass3_eq (wage basic : ℚ) (cs : List FComp) :
    routePass3 wage basic cs
      = (((cs.filter (fun c => ! isFA c)).map (pass3Amount wage basic)).sum,
         cs.map (fun c => if isFA c then c else { c with amount := pass3Amount wage basic c })) := by
  induction cs with
  | nil => simp [routePass3]
  | cons c rest ih =>
    by_cases hfa : c.name = "Fixed Allowance"
    · simp only [routePass3, if_pos hfa, ih, List.filter_cons, List.map_cons, isFA, hfa,
        decide_true_eq_true]
      simp [isFA, hfa]
    · simp only [routePass3, if_neg hfa, ih, List.filter_cons, List.map_cons]
      simp [isFA, hfa, pass3Amount]

theorem routePass4_fst_of_any (remaining : ℚ) (cs : List FComp)
    (h : cs.any isFA = true) : (routePass4 remaining cs).1 = max 0 remaining := by
  induction cs with
  | nil => simp at h
  | cons c rest ih =>
    by_cases hfa : c.name = "Fixed Allowance"
    · simp [routePass4, hfa]
    · have hrest : rest.any isFA = true := by
        rcases List.any_eq_true.mp h with ⟨x, hx, hpx⟩
        rcases List.mem_cons.mp hx with hxc | hxr
        · subst hxc
          exact absurd (of_decide_eq_true hpx) hfa
        · exact List.any_eq_true.mpr ⟨x, hxr, hpx⟩
      simp [routePass4, hfa, ih hrest]

theorem routePass4_of_none (remaining : ℚ) (cs : List FComp)
    (h : cs.any isFA = false) : routePass4 remaining cs = (0, cs) := by
  induction cs with
  | nil => simp [routePass4]
  | cons c rest ih =>
    simp only [List.any_cons, Bool.or_eq_false_iff] at h
    have hfa : ¬ (c.name = "Fixed Allowance") := by
      intro hc
      have : isFA c = true := decide_eq_true hc
      rw [this] at h
      exact Bool.noConfusion h.1
    simp [routePass4, hfa, ih h.2]

theorem routePass4_faAmount (remaining : ℚ) (cs : List FComp)
    (h : cs.any isFA = true) :
    faAmount (routePass4 remaining cs).2 = max 0 remaining := by
  induction cs with
  | nil => simp at h
  | cons c rest ih =>
    by_cases hfa : c.name = "Fixed Allowance"
    · simp [routePass4, hfa, faAmount, List.find?]
    · have hrest : rest.any isFA = true := by
        rcases List.any_eq_true.mp h with ⟨x, hx, hpx⟩
        rcases List.mem_cons.mp hx with hxc | hxr
        · subst hxc
          exact absurd (of_decide_eq_true hpx) hfa
        · exact List.any_eq_true.mpr ⟨x, hxr, hpx⟩
      simp only [routePass4, if_neg hfa]
      have := ih hrest
      simpa [faAmount, List.find?, hfa] using this

theorem routePass4_filter_not_fa (remaining : ℚ) (cs : List FComp) :
    (routePass4 remaining cs).2.filter (fun c => ! isFA c)
      = cs.filter (fun c => ! isFA c) := by
  induction cs with
  | nil => simp [routePass4]
  | cons c rest ih =>
    by_cases hfa : c.name = "Fixed Allowance"
    · have hfa2 : isFA c = true := decide_eq_true hfa
      have hnew : isFA { c with amount := max 0 remaining, value := max 0 remaining }
          = true := decide_eq_true hfa
      simp only [routePass4, if_pos hfa, List.filter_cons, hfa2, hnew, Bool.not_true]
      simp
    · have hfa2 : isFA c = false := by
        simp [isFA, hfa]
      simp only [routePass4, if_neg hfa, List.filter_cons, hfa2, Bool.not_false, ih]

theorem routePass4_amountSum (remaining : ℚ) (cs : List FComp)
    (h0 : ∀ c ∈ cs, c.name = "Fixed Allowance" → c.amount = 0) :
    amountSum (routePass4 remaining cs).2 = amountSum cs + (routePass4 remaining cs).1 := by
  induction cs with
  | nil => simp [routePass4, amountSum]
  | cons c rest ih =>
    by_cases hfa : c.name = "Fixed Allowance"
    · have hc0 : c.amount = 0 := h0 c (List.mem_cons_self c rest) hfa
      simp only [routePass4, if_pos hfa, amountSum, List.map_cons, List.sum_cons, hc0]
      ring
    · have hrest : ∀ d ∈ rest, d.name = "Fixed Allowance" → d.amount = 0 :=
        fun d hd => h0 d (List.mem_cons_of_mem c hd)
      simp only [routePass4, if_neg hfa, amountSum, List.map_cons, List.sum_cons]
      have := ih hrest
      simp only [amountSum] at this
      rw [this]
      ring

theorem amountSum_split_fa (cs : List FComp) :
    amountSum cs = amountSum (cs.filter isFA) + amountSum (cs.filter (fun c => ! isFA c)) := by
  induction cs with
  | nil => simp [amountSum]
  | cons c rest ih =>
    simp only [amountSum] at ih
    cases hfa : isFA c
    · simp only [amountSum, List.map_cons, List.sum_cons]
      simp [List.filter_cons, hfa]
      rw [ih]
      ring
    · simp only [amountSum, List.map_cons, List.sum_cons]
      simp [List.filter_cons, hfa]
      rw [ih]
      ring

theorem amountSum_zero (cs : List FComp) (h : ∀ c ∈ cs, c.amount = 0) :
    amountSum cs = 0 := by
  induction cs with
  | nil => simp [amountSum]
  | cons c rest ih =>
    simp only [amountSum, List.map_cons, List.sum_cons]
    rw [h c (List.mem_cons_self c rest)]
    have := ih (fun d hd => h d (List.mem_cons_of_mem c hd))
    simp only [amountSum] at this
    rw [this]
    ring

theorem routePass2_preserves_nonbasic (wage : ℚ) (cs : List FComp) :
    ∀ c ∈ (routePass2 wage cs).2, c ∈ cs ∨ (c.name = "Basic" ∧
      ∃ d ∈ cs, d.name = "Basic" ∧ c = { d with amount := (routePass2 wage cs).1 }) := by
  induction cs with
  | nil => simp [routePass2]
  | cons d rest ih =>
    by_cases hb : d.name = "Basic"
    · intro c hc
      simp only [routePass2, if_pos hb] at hc ⊢
      rcases List.mem_cons.mp hc with hcd | hcr
      · exact Or.inr ⟨by rw [hcd]; exact hb, d, List.mem_cons_self d rest, hb, hcd⟩
      · exact Or.inl (List.mem_cons_of_mem d hcr)
    · intro c hc
      simp only [routePass2, if_neg hb] at hc ⊢
      rcases List.mem_cons.mp hc with hcd | hcr
      · exact Or.inl (hcd ▸ List.mem_cons_self d rest)
      · rcases ih c hcr with hin | ⟨hcb, e, he, heb, hce⟩
        · exact Or.inl (List.mem_cons_of_mem d hin)
        · exact Or.inr ⟨hcb, e, List.mem_cons_of_mem d he, heb, hce⟩

theorem routePass2_fa_amounts (wage : ℚ) (cs : List FComp)
    (h : ∀ c ∈ cs, c.name = "Fixed Allowance" → c.amount = 0) :
    ∀ c ∈ (routePass2 wage cs).2, c.name = "Fixed Allowance" → c.amount = 0 := by
  intro c hc hfa
  rcases routePass2_preserves_nonbasic wage cs c hc with hin | ⟨hcb, _⟩
  · exact h c hin hfa
  · rw [hfa] at hcb
    exact absurd hcb (by decide)

theorem routePass2_any_fa (wage : ℚ) (cs : List FComp) :
    (routePass2 wage cs).2.any isFA = cs.any isFA := by
  induction cs with
  | nil => simp [routePass2]
  | cons d rest ih =>
    by_cases hb : d.name = "Basic"
    · have hdfa : isFA { d with amount := (if d.ctype = CompType.Percentage then
          wage * d.value / 100 else d.value) } = isFA d := by
        simp [isFA]
      simp only [routePass2, if_pos hb, List.any_cons, hdfa]
    · simp only [routePass2, if_neg hb, List.any_cons, ih]

theorem routePass3_fa_amounts (wage b : ℚ) (cs : List FComp)
    (h : ∀ c ∈ cs, c.name = "Fixed Allowance" → c.amount = 0) :
    ∀ c ∈ (routePass3 wage b cs).2, c.name = "Fixed Allowance" → c.amount = 0 := by
  induction cs with
  | nil => simp [routePass3]
  | cons c rest ih =>
    have hrest : ∀ d ∈ rest, d.name = "Fixed Allowance" → d.amount = 0 :=
      fun d hd => h d (List.mem_cons_of_mem c hd)
    by_cases hfa : c.name = "Fixed Allowance"
    · intro e he hefa
      simp only [routePass3, if_pos hfa] at he
      rcases List.mem_cons.mp he with hec | her
      · exact hec ▸ h c (List.mem_cons_self c rest) (hec ▸ hefa)
      · exact ih hrest e her hefa
    · intro e he hefa
      simp only [routePass3, if_neg hfa] at he
      rcases List.mem_cons.mp he with hec | her
      · exact absurd (by rw [hec] at hefa; exact hefa) hfa
      · exact ih hrest e her hefa

theorem routePass3_any_fa (wage b : ℚ) (cs : List FComp) :
    (routePass3 wage b cs).2.any isFA = cs.any isFA := by
  induction cs with
  | nil => simp [routePass3]
  | cons c rest ih =>
    by_cases hfa : c.name = "Fixed Allowance"
    · simp only [routePass3, if_pos hfa, List.any_cons, ih]
    · have h1 : isFA { c with amount :=
          if c.amount > 0 then c.amount
          else if c.ctype = CompType.Fixed then c.value
          else if c.base = PctBase.Basic ∧ b > 0 then b * c.value / 100
          else wage * c.value / 100 } = isFA c := by
        simp [isFA]
      simp only [routePass3, if_neg hfa, List.any_cons, h1, ih]

theorem routePass3_filter_amounts (wage b : ℚ) (cs : List FComp) :
    amountSum ((routePass3 wage b cs).2.filter (fun c => ! isFA c))
      = (routePass3 wage b cs).1 := by
  induction cs with
  | nil => simp [routePass3, amountSum]
  | cons c rest ih =>
    by_cases hfa : c.name = "Fixed Allowance"
    · have hfa2 : isFA c = true := decide_eq_true hfa
      simp only [routePass3, if_pos hfa, List.filter_cons, hfa2, Bool.not_true]
      simpa using ih
    · have hfa2 : isFA { c with amount :=
          if c.amount > 0 then c.amount
          else if c.ctype = CompType.Fixed then c.value
          else if c.base = PctBase.Basic ∧ b > 0 then b * c.value / 100
          else wage * c.value / 100 } = false := by
        simp [isFA, hfa]
      simp only [routePass3, if_neg hfa, List.filter_cons, hfa2, Bool.not_false, if_true]
      simp only [amountSum, List.map_cons, List.sum_cons] at *
      rw [ih]

/-- C2 (amended): in the salary-structure route, when a `'Fixed Allowance'`
remainder component is present its amount is `max(0, wage − totalSoFar)`
where `totalSoFar` is the sum of all other resolved amounts (the remainder
itself is skipped while totalling), and whenever that total does not exceed
the wage the final total and the sum of all resolved amounts equal the wage
exactly.  (In `calculate_monthly_salary` the remainder's own first-pass
amount is also counted in `totalSoFar`, so the equality there holds only
when that pre-resolved amount is zero — see the counterexample.) -/
theorem C2_route_remainder_reconciles (wage : ℚ) (rows : List FormRow)
    (hFA : rows.any (fun r => r.name = "Fixed Allowance") = true) :
    faAmount (routeResolve wage rows).comps
      = max 0 (wage - (routeResolve wage rows).othersTotal)
    ∧ (routeResolve wage rows).othersTotal
      = amountSum ((routeResolve wage rows).comps.filter (fun c => ! isFA c))
    ∧ ((routeResolve wage rows).othersTotal ≤ wage →
        (routeResolve wage rows).total = wage
        ∧ amountSum (routeResolve wage rows).comps = wage) := by
  have h1 : ∀ c ∈ rows.map mkFComp, c.name = "Fixed Allowance" → c.amount = 0 := by
    intro c hc _
    rcases List.mem_map.mp hc with ⟨r, _, hr⟩
    rw [← hr]
    rfl
  have hany1 : (rows.map mkFComp).any isFA = true := by
    rcases List.any_eq_true.mp hFA with ⟨r, hr, hpr⟩
    refine List.any_eq_true.mpr ⟨mkFComp r, List.mem_map_of_mem _ hr, ?_⟩
    simpa [isFA, mkFComp] using hpr
  have h2fa := routePass2_fa_amounts wage (rows.map mkFComp) h1
  have hany2 : (routePass2 wage (rows.map mkFComp)).2.any isFA = true := by
    rw [routePass2_any_fa]
    exact hany1
  have h3fa := routePass3_fa_amounts wage (routePass2 wage (rows.map mkFComp)).1
    (routePass2 wage (rows.map mkFComp)).2 h2fa
  have hany3 : (routePass3 wage (routePass2 wage (rows.map mkFComp)).1
      (routePass2 wage (rows.map mkFComp)).2).2.any isFA = true := by
    rw [routePass3_any_fa]
    exact hany2
  refine ⟨?_, ?_, ?_⟩
  · show faAmount (routePass4 _ _).2 = _
    exact routePass4_faAmount _ _ hany3
  · show (routePass3 wage (routePass2 wage (rows.map mkFComp)).1
        (routePass2 wage (rows.map mkFComp)).2).1
      = amountSum ((routePass4 _ _).2.filter (fun c => ! isFA c))
    rw [routePass4_filter_not_fa, routePass3_filter_amounts]
  · intro hle
    have hle2 : (routePass3 wage (routePass2 wage (rows.map mkFComp)).1
        (routePass2 wage (rows.map mkFComp)).2).1 ≤ wage := hle
    have hfst := routePass4_fst_of_any
      (wage - (routePass3 wage (routePass2 wage (rows.map mkFComp)).1
        (routePass2 wage (rows.map mkFComp)).2).1)
      (routePass3 wage (routePass2 wage (rows.map mkFComp)).1
        (routePass2 wage (rows.map mkFComp)).2).2 hany3
    have hmax : max 0 (wage - (routePass3 wage (routePass2 wage (rows.map mkFComp)).1
        (routePass2 wage (rows.map mkFComp)).2).1)
        = wage - (routePass3 wage (routePass2 wage (rows.map mkFComp)).1
        (routePass2 wage (rows.map mkFComp)).2).1 :=
      max_eq_right (by linarith [hle2])
    constructor
    · show (routePass3 wage (routePass2 wage (rows.map mkFComp)).1
          (routePass2 wage (rows.map mkFComp)).2).1 + (routePass4 _ _).1 = wage
      rw [hfst, hmax]
      ring
    · show amountSum (routePass4 _ _).2 = wage
      rw [routePass4_amountSum _ _ h3fa, hfst, hmax]
      have hz : amountSum ((routePass3 wage (routePass2 wage (rows.map mkFComp)).1
          (routePass2 wage (rows.map mkFComp)).2).2.filter isFA) = 0 := by
        apply amountSum_zero
        intro c hc
        have hmem := List.mem_of_mem_filter hc
        have hpf := List.of_mem_filter hc
        exact h3fa c hmem (of_decide_eq_true hpf)
      have hsplit := amountSum_split_fa (routePass3 wage
        (routePass2 wage (rows.map mkFComp)).1
        (routePass2 wage (rows.map mkFComp)).2).2
      rw [hsplit, hz, routePass3_filter_amounts]
      ring

/-- Witness for C2 at the spec's structure (wage 50000, Basic 50% of wage,
HRA 50% of Basic, Fixed Allowance remainder): the total reconciles to the
wage exactly. -/
theorem C2_route_remainder_reconciles_witness :
    (routeResolve 50000
        [FormRow.mk "Basic" CompType.Percentage 50 PctBase.Wage,
         FormRow.mk "HRA" CompType.Percentage 50 PctBase.Basic,
         FormRow.mk "Fixed Allowance" CompType.Fixed 0 PctBase.Wage]).total = 50000
    ∧ amountSum (routeResolve 50000
        [FormRow.mk "Basic" CompType.Percentage 50 PctBase.Wage,
         FormRow.mk "HRA" CompType.Percentage 50 PctBase.Basic,
         FormRow.mk "Fixed Allowance" CompType.Fixed 0 PctBase.Wage]).comps = 50000 :=
  (C2_route_remainder_reconciles 50000
      [FormRow.mk "Basic" CompType.Percentage 50 PctBase.Wage,
       FormRow.mk "HRA" CompType.Percentage 50 PctBase.Basic,
       FormRow.mk "Fixed Allowance" CompType.Fixed 0 PctBase.Wage]
      (by decide)).2.2 (by
    simp [routeResolve, routePass2, routePass3, mkFComp]
    norm_num)

/-- Counterexample to C2 as stated: in `calculate_monthly_salary`, a
`Fixed Allowance` remainder with a stored literal value (here Fixed 200,
with one other Fixed 500 component, wage 1000) is itself counted in
`totalSoFar`, so its resolved amount is 300 — not `max(0, 1000 − 500) = 500`
— and the resolved amounts sum to 800, not the wage to within 0.01. -/
theorem C2_calc_remainder_counterexample :
    mapGet (calcResolveComponents 1000
        [SComp.mk "Allowance A" CompType.Fixed 500 PctBase.Wage 1 true,
         SComp.mk "Fixed Allowance" CompType.Fixed 200 PctBase.Wage 2 true]).amounts
      "Fixed Allowance" = some 300
    ∧ max 0 ((1000 : ℚ) - 500) = 500
    ∧ (300 : ℚ) ≠ 500
    ∧ mapSum (calcResolveComponents 1000
        [SComp.mk "Allowance A" CompType.Fixed 500 PctBase.Wage 1 true,
         SComp.mk "Fixed Allowance" CompType.Fixed 200 PctBase.Wage 2 true]).amounts
      = 800
    ∧ ¬ |(800 : ℚ) - 1000| ≤ 1 / 100 := by
  refine ⟨?_, by norm_num, by norm_num, ?_, by rw [abs_sub_comm]; norm_num⟩ <;>
    · simp [calcResolveComponents, calcFirstPass, calcSecondPass, mapInsert, mapGet,
        mapSum, mapHasKey, List.find?, List.any]
      norm_num

theorem routePass2_nonneg (wage : ℚ) (cs : List FComp) (hw : 0 ≤ wage)
    (h : ∀ c ∈ cs, 0 ≤ c.value ∧ 0 ≤ c.amount) :
    0 ≤ (routePass2 wage cs).1
    ∧ ∀ c ∈ (routePass2 wage cs).2, 0 ≤ c.value ∧ 0 ≤ c.amount := by
  induction cs with
  | nil => simp [routePass2]
  | cons c rest ih =>
    have hc := h c (List.mem_cons_self c rest)
    have hrest : ∀ d ∈ rest, 0 ≤ d.value ∧ 0 ≤ d.amount :=
      fun d hd => h d (List.mem_cons_of_mem c hd)
    by_cases hb : c.name = "Basic"
    · have hba : 0 ≤ (if c.ctype = CompType.Percentage then wage * c.value / 100
          else c.value) := by
        split_ifs
        · exact div_nonneg (mul_nonneg hw hc.1) (by norm_num)
        · exact hc.1
      simp only [routePass2, if_pos hb]
      refine ⟨hba, ?_⟩
      intro d hd
      rcases List.mem_cons.mp hd with hdc | hdr
      · rw [hdc]
        exact ⟨hc.1, hba⟩
      · exact hrest d hdr
    · simp only [routePass2, if_neg hb]
      refine ⟨(ih hrest).1, ?_⟩
      intro d hd
      rcases List.mem_cons.mp hd with hdc | hdr
      · rw [hdc]
        exact hc
      · exact (ih hrest).2 d hdr

theorem routePass3_nonneg (wage b : ℚ) (cs : List FComp) (hw : 0 ≤ wage)
    (hb : 0 ≤ b) (h : ∀ c ∈ cs, 0 ≤ c.value ∧ 0 ≤ c.amount) :
    0 ≤ (routePass3 wage b cs).1
    ∧ ∀ c ∈ (routePass3 wage b cs).2, 0 ≤ c.value ∧ 0 ≤ c.amount := by
  induction cs with
  | nil => simp [routePass3]
  | cons c rest ih =>
    have hc := h c (List.mem_cons_self c rest)
    have hrest : ∀ d ∈ rest, 0 ≤ d.value ∧ 0 ≤ d.amount :=
      fun d hd => h d (List.mem_cons_of_mem c hd)
    have ha : 0 ≤ (if c.amount > 0 then c.amount
        else if c.ctype = CompType.Fixed then c.value
        else if c.base = PctBase.Basic ∧ b > 0 then b * c.value / 100
        else wage * c.value / 100) := by
      split_ifs with h1 h2 h3
      · exact le_of_lt h1
      · exact hc.1
      · exact div_nonneg (mul_nonneg hb hc.1) (by norm_num)
      · exact div_nonneg (mul_nonneg hw hc.1) (by norm_num)
    by_cases hfa : c.name = "Fixed Allowance"
    · simp only [routePass3, if_pos hfa]
      refine ⟨(ih hrest).1, ?_⟩
      intro d hd
      rcases List.mem_cons.mp hd with hdc | hdr
      · rw [hdc]
        exact hc
      · exact (ih hrest).2 d hdr
    · simp only [routePass3, if_neg hfa]
      refine ⟨add_nonneg ha (ih hrest).1, ?_⟩
      intro d hd
      rcases List.mem_cons.mp hd with hdc | hdr
      · rw [hdc]
        exact ⟨hc.1, ha⟩
      · exact (ih hrest).2 d hdr

theorem routePass4_nonneg (remaining : ℚ) (cs : List FComp)
    (h : ∀ c ∈ cs, 0 ≤ c.amount) :
    ∀ c ∈ (routePass4 remaining cs).2, 0 ≤ c.amount := by
  induction cs with
  | nil => simp [routePass4]
  | cons c rest ih =>
    have hrest : ∀ d ∈ rest, 0 ≤ d.amount :=
      fun d hd => h d (List.mem_cons_of_mem c hd)
    by_cases hfa : c.name = "Fixed Allowance"
    · simp only [routePass4, if_pos hfa]
      intro d hd
      rcases List.mem_cons.mp hd with hdc | hdr
      · rw [hdc]
        exact le_max_left 0 remaining
      · exact hrest d hdr
    · simp only [routePass4, if_neg hfa]
      intro d hd
      rcases List.mem_cons.mp hd with hdc | hdr
      · rw [hdc]
        exact h c (List.mem_cons_self c rest)
      · exact ih hrest d hdr

theorem faAmount_of_no_fa (cs : List FComp) (h : cs.any isFA = false) :
    faAmount cs = 0 := by
  have hfind : cs.find? (fun c => c.name = "Fixed Allowance") = none := by
    apply List.find?_eq_none.mpr
    intro x hx
    intro hpx
    have : cs.any isFA = true := List.any_eq_true.mpr ⟨x, hx, hpx⟩
    rw [this] at h
    exact Bool.noConfusion h
  simp [faAmount, hfind]

/-- C3 (amended): when the non-remainder components of a salary structure
resolve to a total strictly greater than `wage + 0.01` the route flags the
exceeds-wage validation error (for totals in `(wage, wage + 0.01]` the
tolerance of line 402 accepts silently); whenever the total exceeds the wage
the remainder is clamped to 0, and with non-negative component values and
wage no negative amount is produced. -/
theorem C3_exceeds_wage_flagged (wage : ℚ) (rows : List FormRow)
    (hw : 0 ≤ wage) (hv : ∀ r ∈ rows, 0 ≤ r.value) :
    (∀ c ∈ (routeResolve wage rows).comps, 0 ≤ c.amount)
    ∧ ((routeResolve wage rows).othersTotal > wage →
        faAmount (routeResolve wage rows).comps = 0)
    ∧ ((routeResolve wage rows).othersTotal > wage + 1 / 100 →
        (routeResolve wage rows).exceedsWage = true) := by
  have h0 : ∀ c ∈ rows.map mkFComp, 0 ≤ c.value ∧ 0 ≤ c.amount := by
    intro c hc
    rcases List.mem_map.mp hc with ⟨r, hr, hrc⟩
    rw [← hrc]
    exact ⟨hv r hr, le_refl 0⟩
  have p2n := routePass2_nonneg wage (rows.map mkFComp) hw h0
  have p3n := routePass3_nonneg wage (routePass2 wage (rows.map mkFComp)).1
    (routePass2 wage (rows.map mkFComp)).2 hw p2n.1 p2n.2
  refine ⟨?_, ?_, ?_⟩
  · show ∀ c ∈ (routePass4 _ _).2, 0 ≤ c.amount
    exact routePass4_nonneg _ _ (fun c hc => (p3n.2 c hc).2)
  · intro hgt
    have hgt2 : (routePass3 wage (routePass2 wage (rows.map mkFComp)).1
        (routePass2 wage (rows.map mkFComp)).2).1 > wage := hgt
    cases hany : (routePass3 wage (routePass2 wage (rows.map mkFComp)).1
        (routePass2 wage (rows.map mkFComp)).2).2.any isFA
    · show faAmount (routePass4 _ _).2 = 0
      rw [routePass4_of_none _ _ hany]
      exact faAmount_of_no_fa _ hany
    · show faAmount (routePass4 _ _).2 = 0
      rw [routePass4_faAmount _ _ hany]
      exact max_eq_left (by linarith)
  · intro hgt
    have hgt2 : (routePass3 wage (routePass2 wage (rows.map mkFComp)).1
        (routePass2 wage (rows.map mkFComp)).2).1 > wage + 1 / 100 := hgt
    have hgtw : (routePass3 wage (routePass2 wage (rows.map mkFComp)).1
        (routePass2 wage (rows.map mkFComp)).2).1 > wage := by linarith
    have hfa0 : (routePass4 (wage - (routePass3 wage
        (routePass2 wage (rows.map mkFComp)).1
        (routePass2 wage (rows.map mkFComp)).2).1)
        (routePass3 wage (routePass2 wage (rows.map mkFComp)).1
        (routePass2 wage (rows.map mkFComp)).2).2).1 = 0 := by
      cases hany : (routePass3 wage (routePass2 wage (rows.map mkFComp)).1
          (routePass2 wage (rows.map mkFComp)).2).2.any isFA
      · rw [routePass4_of_none _ _ hany]
      · rw [routePass4_fst_of_any _ _ hany]
        exact max_eq_left (by linarith)
    show decide ((routePass3 wage (routePass2 wage (rows.map mkFComp)).1
        (routePass2 wage (rows.map mkFComp)).2).1
      + (routePass4 _ _).1 > wage + 1 / 100) = true
    rw [hfa0, add_zero]
    exact decide_eq_true hgt2

/-- Witness for C3 at a concrete structure: wage 100 with a Fixed 200
component and a Fixed Allowance remainder — the remainder is clamped to 0
and the exceeds-wage error is flagged. -/
theorem C3_exceeds_wage_flagged_witness :
    faAmount (routeResolve 100
        [FormRow.mk "A" CompType.Fixed 200 PctBase.Wage,
         FormRow.mk "Fixed Allowance" CompType.Fixed 0 PctBase.Wage]).comps = 0
    ∧ (routeResolve 100
        [FormRow.mk "A" CompType.Fixed 200 PctBase.Wage,
         FormRow.mk "Fixed Allowance" CompType.Fixed 0 PctBase.Wage]).exceedsWage
      = true :=
  ⟨(C3_exceeds_wage_flagged 100
      [FormRow.mk "A" CompType.Fixed 200 PctBase.Wage,
       FormRow.mk "Fixed Allowance" CompType.Fixed 0 PctBase.Wage]
      (by norm_num) (by decide)).2.1 (by
        show (routeResolve 100 _).othersTotal > 100
        simp [routeResolve, routePass2, routePass3, mkFComp]
        norm_num),
   (C3_exceeds_wage_flagged 100
      [FormRow.mk "A" CompType.Fixed 200 PctBase.Wage,
       FormRow.mk "Fixed Allowance" CompType.Fixed 0 PctBase.Wage]
      (by norm_num) (by decide)).2.2 (by
        show (routeResolve 100 _).othersTotal > 100 + 1 / 100
        simp [routeResolve, routePass2, routePass3, mkFComp]
        norm_num)⟩

/-- Counterexample to C3 as stated: with wage 100 and a single component of
100.005 the non-remainder total strictly exceeds the wage, yet the route's
check `total > wage + 0.01` (line 402) does not flag it — no
exceeds-wage error is surfaced (the remainder is still clamped to 0). -/
theorem C3_tolerance_counterexample :
    (routeResolve 100
        [FormRow.mk "A" CompType.Fixed (20001 / 200) PctBase.Wage,
         FormRow.mk "Fixed Allowance" CompType.Fixed 0 PctBase.Wage]).othersTotal > 100
    ∧ (routeResolve 100
        [FormRow.mk "A" CompType.Fixed (20001 / 200) PctBase.Wage,
         FormRow.mk "Fixed Allowance" CompType.Fixed 0 PctBase.Wage]).exceedsWage = false
    ∧ faAmount (routeResolve 100
        [FormRow.mk "A" CompType.Fixed (20001 / 200) PctBase.Wage,
         FormRow.mk "Fixed Allowance" CompType.Fixed 0 PctBase.Wage]).comps = 0 := by
  refine ⟨?_, ?_, ?_⟩ <;>
    · simp [routeResolve, routePass2, routePass3, routePass4, mkFComp, faAmount,
        List.find?]
      norm_num

/-- C9 (amended): when no component is named `Basic`, the
`calculate_monthly_salary` resolver sets `basicAmount` to 0 and resolves
every active non-remainder `Percentage`-of-`Basic` component to 0; but
`SalaryComponent.calculate_amount` (and likewise the salary-structure
route) falls back to the wage as base whenever `basic_amount` is falsy, so
there a `Percentage`-of-`Basic` component yields `wage × value / 100`
instead of 0. -/
theorem C9_no_basic_resolution (wage : ℚ) (comps : List SComp)
    (hnd : ((activeComps comps).map SComp.name).Nodup)
    (hB : ∀ c ∈ activeComps comps, c.name ≠ "Basic")
    (hFA : (activeComps comps).any (fun d => d.name = "Fixed Allowance") = true) :
    (calcResolveComponents wage (activeComps comps)).basicAmount = 0
    ∧ (∀ c ∈ activeComps comps, c.name ≠ "Fixed Allowance" →
        c.ctype = CompType.Percentage → c.base = PctBase.Basic →
        mapGet (calcResolveComponents wage (activeComps comps)).amounts c.name
          = some 0)
    ∧ (∀ (w : ℚ) (c : SComp), c.ctype = CompType.Percentage →
        calculateAmount c w none = w * c.value / 100) := by
  have hfind : (activeComps comps).find? (fun c => c.name = "Basic") = none := by
    apply List.find?_eq_none.mpr
    intro x hx hpx
    exact hB x hx (of_decide_eq_true hpx)
  have hspec : specBasicAmount wage (activeComps comps) = 0 := by
    simp [specBasicAmount, hfind]
  have hbasic : (calcFirstPass wage (activeComps comps) 0 []).1 = 0 := by
    rw [calcFirstPass_basic wage (activeComps comps) [] hnd, hspec]
  refine ⟨?_, ?_, ?_⟩
  · simp only [calcResolveComponents, if_pos hFA]
    exact hbasic
  · intro c hc hcfa hp hb
    rw [calcResolve_get wage (activeComps comps) c hnd hFA hc hcfa]
    have hcB : ¬ (c.name = "Basic") := hB c hc
    simp only [specAmount, if_neg hcB, hspec]
    rw [hp, hb]
    norm_num
  · intro w c hp
    simp [calculateAmount, hp, optTruthy]

/-- Witness for C9 at a concrete structure: an active `X` component,
`Percentage` 10 of `Basic`, with no `Basic` component present, resolves to
0 in the monthly-salary resolver. -/
theorem C9_no_basic_resolution_witness :
    mapGet (calcResolveComponents 1000 (activeComps
        [SComp.mk "X" CompType.Percentage 10 PctBase.Basic 1 true,
         SComp.mk "Fixed Allowance" CompType.Fixed 0 PctBase.Wage 2 true])).amounts "X"
      = some 0 :=
  (C9_no_basic_resolution 1000
      [SComp.mk "X" CompType.Percentage 10 PctBase.Basic 1 true,
       SComp.mk "Fixed Allowance" CompType.Fixed 0 PctBase.Wage 2 true]
      (by decide) (by decide) (by decide)).2.1
    (SComp.mk "X" CompType.Percentage 10 PctBase.Basic 1 true)
    (by decide) (by decide) rfl rfl

/-- Counterexample to C9 as stated: the salary-structure route resolves the
`Percentage`-of-`Basic` component `X` (value 10, wage 1000, no `Basic`
present, so `basicAmount = 0`) to 100 = `wage × 10 / 100`, not 0. -/
theorem C9_route_counterexample :
    (routeResolve 1000 [FormRow.mk "X" CompType.Percentage 10 PctBase.Basic]).comps
      = [FComp.mk "X" CompType.Percentage 10 PctBase.Basic 100]
    ∧ (100 : ℚ) ≠ 0
    ∧ (routeResolve 1000
        [FormRow.mk "X" CompType.Percentage 10 PctBase.Basic]).basicAmount = 0 := by
  refine ⟨?_, by norm_num, ?_⟩
  · simp [routeResolve, routePass2, routePass3, routePass4, mkFComp]
    norm_num
  · simp [routeResolve, routePass2, routePass3, routePass4, mkFComp]

theorem wageProp_eq_specDerived (s : PaySettings) (h : s.wageOverride = none) :
    wageProp s = specDerivedWage s := by
  simp only [wageProp, specDerivedWage, h]
  by_cases hpos : (((activeComps s.components).filter
      (fun c => c.ctype = CompType.Fixed)).map (fun c => c.value)).sum > 0
  · have hne : activeComps s.components ≠ [] := by
      intro he
      rw [he] at hpos
      simp at hpos
    rw [if_pos ⟨hne, hpos⟩, if_pos hpos]
  · rw [if_neg (fun hc => hpos hc.2), if_neg hpos]
    by_cases hb : s.basicSalary = 0
    · rw [if_neg (fun hc => hc hb), hb]
    · rw [if_pos hb]

/-- C10 (amended): with no in-memory wage override, the `wage` property
returns the sum of the values of the active `Fixed` components when that
sum is positive (`Percentage` components contribute nothing) and falls back
to `basic_salary` otherwise; the `generate` route's salary-structure
precondition is evaluated against this derived value, rejecting exactly
when the derived wage and the legacy basic salary are both zero (a nonzero
test — strict positivity is only enforced later by the salary
calculation). -/
theorem C10_derived_wage_precondition (s : PaySettings) (h : s.wageOverride = none)
    (p : SComp) (hp : p.ctype = CompType.Percentage) :
    wageProp s = specDerivedWage s
    ∧ wageProp (PaySettings.mk none (s.components ++ [p]) s.basicSalary
        s.pfPercentage s.professionalTaxAmount) = wageProp s
    ∧ (∀ (uid m y : ℕ) (sd : Option SalaryData),
        generatePayroll [] uid m y (some s) sd
            = Except.error GenErr.missingSalaryStructure
          ↔ (wageProp s = 0 ∧ s.basicSalary = 0)) := by
  refine ⟨wageProp_eq_specDerived s h, ?_, ?_⟩
  · rw [wageProp_eq_specDerived s h, wageProp_eq_specDerived _ rfl]
    simp only [specDerivedWage, activeComps, List.filter_append]
    have hdrop : List.filter (fun c => c.ctype = CompType.Fixed)
        (List.filter (fun c => c.isActive) [p]) = [] := by
      by_cases hact : p.isActive
      · simp [List.filter, hact, hp]
      · simp [List.filter, hact]
    rw [hdrop, List.append_nil]
  · intro uid m y sd
    constructor
    · intro heq
      by_cases hcond : wageProp s = 0 ∧ s.basicSalary = 0
      · exact hcond
      · exfalso
        simp only [generatePayroll, List.find?, if_neg hcond] at heq
        cases sd with
        | none => exact GenErr.noConfusion (Except.error.inj heq)
        | some d => exact Except.noConfusion heq
    · intro hcond
      simp [generatePayroll, List.find?, hcond]

/-- Witness for C10 at a concrete settings row (no override, one active
Fixed 3000 component, one active Percentage component, legacy basic 111):
the derived wage agrees with the spec-worded definition and equals 3000. -/
theorem C10_derived_wage_precondition_witness :
    wageProp (PaySettings.mk none
        [SComp.mk "A" CompType.Fixed 3000 PctBase.Wage 1 true,
         SComp.mk "B" CompType.Percentage 50 PctBase.Wage 2 true] 111 12 200)
      = specDerivedWage (PaySettings.mk none
        [SComp.mk "A" CompType.Fixed 3000 PctBase.Wage 1 true,
         SComp.mk "B" CompType.Percentage 50 PctBase.Wage 2 true] 111 12 200)
    ∧ specDerivedWage (PaySettings.mk none
        [SComp.mk "A" CompType.Fixed 3000 PctBase.Wage 1 true,
         SComp.mk "B" CompType.Percentage 50 PctBase.Wage 2 true] 111 12 200) = 3000 :=
  ⟨(C10_derived_wage_precondition (PaySettings.mk none
      [SComp.mk "A" CompType.Fixed 3000 PctBase.Wage 1 true,
       SComp.mk "B" CompType.Percentage 50 PctBase.Wage 2 true] 111 12 200) rfl
      (SComp.mk "B" CompType.Percentage 50 PctBase.Wage 2 true) rfl).1,
   by simp [specDerivedWage, activeComps]⟩

/-- Counterexample to C10 as stated: with no override, no components and
`basic_salary = −5`, the derived wage is −5 — neither the derived wage nor
the legacy basic salary is positive — yet the `generate` route's
precondition does not reject (the call proceeds past the structure check and
fails only later, at the salary calculation). -/
theorem C10_nonzero_not_positive_counterexample :
    wageProp (PaySettings.mk none [] (-5) 12 200) = -5
    ∧ ¬ (0 < wageProp (PaySettings.mk none [] (-5) 12 200)
        ∨ 0 < (PaySettings.mk none [] (-5) 12 200).basicSalary)
    ∧ generatePayroll [] 1 6 2024 (some (PaySettings.mk none [] (-5) 12 200)) none
        = Except.error GenErr.calcError := by
  have hw : wageProp (PaySettings.mk none [] (-5) 12 200) = -5 := by
    simp [wageProp, activeComps]
  refine ⟨hw, ?_, ?_⟩
  · rw [hw]
    push_neg
    constructor <;> norm_num
  · have hcond : ¬ (wageProp (PaySettings.mk none [] (-5) 12 200) = 0
        ∧ (PaySettings.mk none [] (-5) 12 200).basicSalary = 0) := by
      rw [hw]
      intro hc
      norm_num at hc
    simp [generatePayroll, List.find?, if_neg hcond]

end WorkZen